import Mathlib

/-!
# Table-planner engine: shallow embedding and verification

This file embeds the table-state engine of the `table-planner` repository
(`src/table_planner/`) in Lean 4 and proves properties of it:

* the data model of `types.py` (`ArchiveReason`, `PlayerEntry`, `TableData`);
* the signup state machine of `views.py` (`SignupView.join_callback`,
  `SignupView.leave_callback`, `ArchiveView.select_callback`);
* the edit/demotion logic of `modals.py` (`EditTableModal.on_submit`);
* the persistence layer of `storage.py` (`save_tables`, `_write_json`,
  `_read_json`, `archive_tables`), modelled down to the JSON documents;
* the sliding-window rate limiter of `command_handlers/utils.py`.

Modelling conventions: Python dicts become insertion-ordered association
lists; the ISO-8601 `joined_at` timestamp strings (whose lexicographic order
agrees with chronological order) are abstracted as naturals ordered the same
way; `datetime` arithmetic in the rate limiter is exact, so those timestamps
are rationals; Python exceptions become `Except`.
-/

namespace TablePlanner

/-! ## types.py -/

/-- `ArchiveReason` enum from `types.py` (`MOD`, `OWNER`, `NO_ACCESS`, `KICK`). -/
inductive ArchiveReason : Type
  | MOD
  | OWNER
  | NO_ACCESS
  | KICK
deriving DecidableEq, Repr

/-- The `.value` string of each enum member (it is a `str`-valued enum). -/
def ArchiveReason.value : ArchiveReason → String
  | .MOD => "MOD"
  | .OWNER => "OWNER"
  | .NO_ACCESS => "NO_ACCESS"
  | .KICK => "KICK"

/-- `ArchiveReason(s)` for a string `s`: the member with that value, if any
(Python raises `ValueError` otherwise, modelled by `none`). -/
def ArchiveReason.fromString : String → Option ArchiveReason
  | "MOD" => some .MOD
  | "OWNER" => some .OWNER
  | "NO_ACCESS" => some .NO_ACCESS
  | "KICK" => some .KICK
  | _ => none

/-- `PlayerEntry` from `types.py`: `id`, `joined_at` (timestamp, here a `Nat`
standing for the ISO string), and the optional (`NotRequired`) cached
`display_name` (`none` = key absent). -/
structure PlayerEntry : Type where
  id : Nat
  joined_at : Nat
  display_name : Option String
deriving DecidableEq, Repr

/-- `TableData` from `types.py`. `created_at`/`archived_at` are nullable
strings, `archived_by` a nullable int. -/
structure TableData : Type where
  system : String
  infos : String
  schedule : String
  created_at : Option String
  max_players : Nat
  players : List PlayerEntry
  waitlist : List PlayerEntry
  creator_id : Nat
  message_id : Nat
  channel_id : Nat
  guild_id : Nat
  archive_reason : Option ArchiveReason
  archived_at : Option String
  archived_by : Option Nat
deriving DecidableEq, Repr

/-- `TablesDB = Dict[str, TableData]`: an insertion-ordered association list
with unique keys, as a Python dict. -/
abbrev TablesDB := List (String × TableData)

/-- `kvs.get(k)` / `kvs[k]` lookup on a Python dict. -/
def pdictGet {α : Type} (kvs : List (String × α)) (k : String) : Option α :=
  (kvs.find? (fun p => p.1 = k)).map (·.2)

/-- `kvs[k] = v` on a Python dict: update in place if the key exists,
otherwise append (insertion order). -/
def pdictSet {α : Type} (kvs : List (String × α)) (k : String) (v : α) :
    List (String × α) :=
  if kvs.any (fun p => p.1 = k) then
    kvs.map (fun p => if p.1 = k then (k, v) else p)
  else kvs ++ [(k, v)]

/-- `db.get(k)` on a tables dict. -/
def dbGet (db : TablesDB) (k : String) : Option TableData :=
  pdictGet db k

/-- `db[k] = v` on a tables dict. -/
def dbSet (db : TablesDB) (k : String) (v : TableData) : TablesDB :=
  pdictSet db k v

/-- `db.pop(k, None)`: remove the key if present. -/
def dbPop (db : TablesDB) (k : String) : TablesDB :=
  db.filter (fun p => ¬ p.1 = k)

/-! ## command_handlers/utils.py — sliding-window rate limiter

`check_user_rate_limit` and `check_guild_rate_limit` are the same algorithm
on different module-level dicts; we embed the per-key core.  Timestamps are
rationals (exact `datetime` arithmetic, sub-second precision). -/

/-- Python `int(x)` on a rational: truncation toward zero. -/
def pyInt (q : ℚ) : ℤ :=
  if 0 ≤ q then ⌊q⌋ else -⌊-q⌋

/-- Outcome of one rate-limit check: `allowed`, the `wait_seconds` hint, and
the key's timestamp deque after the call. -/
structure RateLimitOutcome : Type where
  allowed : Bool
  wait_seconds : ℤ
  timestamps : List ℚ
deriving DecidableEq, Repr

/-- Core of `check_user_rate_limit` / `check_guild_rate_limit` acting on one
key's deque: prune timestamps `< now - window` from the front, then either
deny with `wait_seconds = max(0, int(oldest + window - now))` or admit and
append `now`.  (`config.py` guarantees `maxCommands ≥ 1`; the empty-deque
deny branch, where Python would fault indexing `timestamps[0]`, is
unreachable then.) -/
def check_rate_limit (maxCommands : Nat) (windowSeconds : ℚ)
    (timestamps : List ℚ) (now : ℚ) : RateLimitOutcome :=
  let cutoff := now - windowSeconds
  let pruned := timestamps.dropWhile (fun t => decide (t < cutoff))
  if maxCommands ≤ pruned.length then
    match pruned with
    | oldest :: _ =>
        ⟨false, max 0 (pyInt (oldest + windowSeconds - now)), pruned⟩
    | [] => ⟨false, 0, pruned⟩
  else
    ⟨true, 0, pruned ++ [now]⟩

/-! ## views.py — display-name population (best effort, never fails) -/

/-- Python truthiness of `entry.get("display_name")`: a present, non-empty
string. -/
def pyTruthy : Option String → Bool
  | some s => if s = "" then false else true
  | none => false

/-- One entry of `SignupView._populate_display_names`: if the cached name is
falsy, try the external resolver and store its result when truthy. -/
def populateEntry (resolve : Nat → Option String) (e : PlayerEntry) : PlayerEntry :=
  if pyTruthy e.display_name then e
  else
    match resolve e.id with
    | some n => if n = "" then e else { e with display_name := some n }
    | none => e

/-- `_populate_display_names` over both buckets of a record. -/
def populateTable (resolve : Nat → Option String) (td : TableData) : TableData :=
  { td with
    players := td.players.map (populateEntry resolve),
    waitlist := td.waitlist.map (populateEntry resolve) }

/-! ## storage.py — `save_tables` (structured level)

`save_tables` clears `archive_reason` on every record written to the active
side, then writes both partitions.  At the structured level the persisted
pair is the normalized one. -/

/-- The active-side normalization of `save_tables`. -/
def clearReason (td : TableData) : TableData :=
  { td with archive_reason := none }

/-- `save_tables(active, archived)`: the pair of collections as persisted. -/
def save_tables (active archived : TablesDB) : TablesDB × TablesDB :=
  (active.map (fun p => (p.1, clearReason p.2)), archived)

/-- Result of one UI callback: the operation's result, the list of
`save_tables` calls it performed, and the persisted collections afterwards
(unchanged when nothing was saved). -/
structure CallbackResult (ε ρ : Type) : Type where
  result : Except ε ρ
  saves : List (TablesDB × TablesDB)
  active : TablesDB
  archived : TablesDB

/-! ## views.py — SignupView callbacks -/

/-- User-facing rejections of the signup callbacks. -/
inductive SignupError : Type
  | tableGone
  | alreadySignedUp
  | alreadyOnWaitlist
  | notSignedUp
deriving DecidableEq, Repr

/-- Result of a successful join. -/
inductive JoinOutcome : Type
  | Seated
  | Waitlisted
deriving DecidableEq, Repr

/-- `SignupView.join_callback` (state-machine core; platform I/O elided).
`userName` is `getattr(user, "display_name", user.name)`, `now` the
`joined_at` timestamp, `resolve` the external display-name resolver. -/
def join_callback (active archived : TablesDB) (tableId : String)
    (userId : Nat) (userName : String) (resolve : Nat → Option String)
    (now : Nat) : CallbackResult SignupError JoinOutcome :=
  match dbGet active tableId with
  | none => ⟨.error .tableGone, [], active, archived⟩
  | some td =>
    let players := td.players
    let waitlist := td.waitlist
    if players.any (fun e => e.id = userId) then
      ⟨.error .alreadySignedUp, [], active, archived⟩
    else if waitlist.any (fun e => e.id = userId) then
      ⟨.error .alreadyOnWaitlist, [], active, archived⟩
    else if td.max_players ≤ players.length then
      let entry : PlayerEntry := ⟨userId, now, some userName⟩
      let td1 := populateTable resolve { td with waitlist := waitlist ++ [entry] }
      let st := save_tables (dbSet active tableId td1) archived
      ⟨.ok .Waitlisted, [st], st.1, st.2⟩
    else
      let entry : PlayerEntry := ⟨userId, now, some userName⟩
      let td1 := populateTable resolve { td with players := players ++ [entry] }
      let st := save_tables (dbSet active tableId td1) archived
      ⟨.ok .Seated, [st], st.1, st.2⟩

/-- `SignupView.leave_callback` (state-machine core).  On success the payload
is the promoted waitlist entry, if any. -/
def leave_callback (active archived : TablesDB) (tableId : String)
    (userId : Nat) (resolve : Nat → Option String) :
    CallbackResult SignupError (Option PlayerEntry) :=
  match dbGet active tableId with
  | none => ⟨.error .notSignedUp, [], active, archived⟩
  | some td =>
    let players := td.players
    let waitlist := td.waitlist
    if players.any (fun e => e.id = userId) then
      let players1 := players.filter (fun e => ¬ e.id = userId)
      let step : Option PlayerEntry × List PlayerEntry × List PlayerEntry :=
        match waitlist with
        | [] => (none, players1, waitlist)
        | w :: ws => (some w, players1 ++ [w], ws)
      let td1 := populateTable resolve
        { td with players := step.2.1, waitlist := step.2.2 }
      let st := save_tables (dbSet active tableId td1) archived
      ⟨.ok step.1, [st], st.1, st.2⟩
    else if waitlist.any (fun e => e.id = userId) then
      let td1 := populateTable resolve
        { td with waitlist := waitlist.filter (fun e => ¬ e.id = userId) }
      let st := save_tables (dbSet active tableId td1) archived
      ⟨.ok none, [st], st.1, st.2⟩
    else ⟨.error .notSignedUp, [], active, archived⟩

/-! ## modals.py — table creation and editing -/

/-- The `new_table` record built by `NewTableModal.on_submit` (message and
channel ids are filled in after the card is posted). -/
def freshTable (systemV infosV scheduleV : String) (createdAt : String)
    (maxPlayers : Nat) (creatorId : Nat) (guildId : Nat) : TableData :=
  { system := systemV
    infos := infosV
    schedule := scheduleV
    created_at := some createdAt
    max_players := maxPlayers
    players := []
    waitlist := []
    creator_id := creatorId
    message_id := 0
    channel_id := 0
    guild_id := guildId
    archive_reason := none
    archived_at := none
    archived_by := none }

/-- Validation rejections of `EditTableModal.on_submit` (a non-numeric
max-players string is rejected exactly like an out-of-range one). -/
inductive EditError : Type
  | badMaxPlayers
  | emptySystem
  | emptySchedule
  | emptyInfos
  | systemTooLong
  | scheduleTooLong
  | infosTooLong
  | tableGone
deriving DecidableEq, Repr

/-- The `while len(players) > max_players_int: players.pop()` loop of
`EditTableModal.on_submit`: repeatedly pop the last roster entry, appending
each popped entry to `moved_to_waitlist`. -/
def demoteLoop (maxP : Nat) (players moved : List PlayerEntry) :
    List PlayerEntry × List PlayerEntry :=
  if h : maxP < players.length then
    demoteLoop maxP players.dropLast
      (moved ++ [players.getLast (fun hnil => by simp [hnil] at h)])
  else (players, moved)
termination_by players.length
decreasing_by simp [List.length_dropLast]; omega

/-- Stable insertion into a list sorted by `joined_at` (the new element goes
before the first entry whose key is not smaller). -/
def insertByJoined (e : PlayerEntry) : List PlayerEntry → List PlayerEntry
  | [] => [e]
  | x :: xs =>
    if x.joined_at < e.joined_at then x :: insertByJoined e xs
    else e :: x :: xs

/-- `combined_waitlist.sort(key=lambda item: item["joined_at"])`: Python's
sort is stable, and a stable sort by a key is unique, so this stable
insertion sort computes the same list. -/
def sortByJoined : List PlayerEntry → List PlayerEntry
  | [] => []
  | x :: xs => insertByJoined x (sortByJoined xs)

/-- `EditTableModal.on_submit` (state-machine core): validate the fields,
update the record, demote excess roster entries to the waitlist and re-sort
it.  The payload is `moved_to_waitlist`. -/
def edit_on_submit (active archived : TablesDB) (tableId : String)
    (systemV scheduleV infosV : String) (maxPlayersInput : Int) :
    CallbackResult EditError (List PlayerEntry) :=
  if maxPlayersInput ≤ 0 then ⟨.error .badMaxPlayers, [], active, archived⟩
  else if 20 < maxPlayersInput then ⟨.error .badMaxPlayers, [], active, archived⟩
  else if systemV = "" then ⟨.error .emptySystem, [], active, archived⟩
  else if scheduleV = "" then ⟨.error .emptySchedule, [], active, archived⟩
  else if infosV = "" then ⟨.error .emptyInfos, [], active, archived⟩
  else if 100 < systemV.length then ⟨.error .systemTooLong, [], active, archived⟩
  else if 120 < scheduleV.length then ⟨.error .scheduleTooLong, [], active, archived⟩
  else if 1024 < infosV.length then ⟨.error .infosTooLong, [], active, archived⟩
  else
    match dbGet active tableId with
    | none => ⟨.error .tableGone, [], active, archived⟩
    | some td0 =>
      let mp := maxPlayersInput.toNat
      let td := { td0 with
        system := systemV, schedule := scheduleV, infos := infosV,
        max_players := mp }
      let players := td.players
      let waitlist := td.waitlist
      if mp < players.length then
        let pm := demoteLoop mp players []
        let td1 := { td with
          players := pm.1, waitlist := sortByJoined (waitlist ++ pm.2) }
        let st := save_tables (dbSet active tableId td1) archived
        ⟨.ok pm.2, [st], st.1, st.2⟩
      else
        let st := save_tables (dbSet active tableId td) archived
        ⟨.ok [], [st], st.1, st.2⟩

/-! ## views.py — ArchiveView, and storage.py — archive_tables -/

/-- Rejections of `ArchiveView.select_callback` (the selection/ownership
guards on the widget are elided; the state-relevant ones remain). -/
inductive ArchiveError : Type
  | tableMissing
  | forbidden
deriving DecidableEq, Repr

/-- `ArchiveView.select_callback` (state-machine core).  The moderation
authority check (`manage_messages`) is externally resolved and passed in as
a boolean.  On success the payload is the stamped reason. -/
def archive_select (active archived : TablesDB) (tableId : String)
    (actorId : Nat) (hasManageMessages : Bool) :
    CallbackResult ArchiveError ArchiveReason :=
  match dbGet active tableId with
  | none => ⟨.error .tableMissing, [], active, archived⟩
  | some td =>
    let reasonE : Except ArchiveError ArchiveReason :=
      if actorId = td.creator_id then .ok .OWNER
      else if hasManageMessages then .ok .MOD
      else .error .forbidden
    match reasonE with
    | .error e => ⟨.error e, [], active, archived⟩
    | .ok reason =>
      let td1 := { td with archive_reason := some reason }
      let active1 := dbPop active tableId
      let archived1 := dbSet archived tableId td1
      let st := save_tables active1 archived1
      ⟨.ok reason, [st], st.1, st.2⟩

/-- Result of `storage.archive_tables`: the count of archived records, the
saves performed, and the persisted collections afterwards. -/
structure ArchiveTablesOutcome : Type where
  count : Nat
  saves : List (TablesDB × TablesDB)
  active : TablesDB
  archived : TablesDB

/-- `storage.archive_tables(table_ids, reason)`: pop each listed id from the
active collection, stamp the reason, add it to the archive; save only when
at least one record moved. -/
def archive_tables (active archived : TablesDB) (tableIds : List String)
    (reason : ArchiveReason) : ArchiveTablesOutcome :=
  let step := fun (st : TablesDB × TablesDB × Nat) (tid : String) =>
    match dbGet st.1 tid with
    | none => st
    | some record =>
      (dbPop st.1 tid,
       dbSet st.2.1 tid { record with archive_reason := some reason },
       st.2.2 + 1)
  let fin := tableIds.foldl step (active, archived, 0)
  if fin.2.2 ≠ 0 then
    let st := save_tables fin.1 fin.2.1
    ⟨fin.2.2, [st], st.1, st.2⟩
  else ⟨fin.2.2, [], active, archived⟩

/-! ## storage.py — the JSON documents (`_write_json` / `_read_json`)

`_read_json` parses a partition file and normalizes each entry, turning the
`archive_reason` string back into the enum; `_write_json` converts the enum
to its string value and dumps the document.  `JVal` is the JSON tree held in
the file, `PVal` a Python value as held in the in-memory dicts (it can
additionally be an `ArchiveReason` member). -/

/-- A JSON value, as produced by `json.load` / consumed by `json.dump`. -/
inductive JVal : Type
  | jnull
  | jbool (b : Bool)
  | jint (n : Int)
  | jstr (s : String)
  | jarr (xs : List JVal)
  | jobj (kvs : List (String × JVal))

/-- A Python value held in a tables dict: JSON scalars and containers, plus
`ArchiveReason` members. -/
inductive PVal : Type
  | pnull
  | pbool (b : Bool)
  | pint (n : Int)
  | pstr (s : String)
  | plist (xs : List PVal)
  | pdict (kvs : List (String × PVal))
  | preason (r : ArchiveReason)

/-- A partition as held in memory: dict of table id to entry dict. -/
abbrev PyDB := List (String × List (String × PVal))

/-- Exceptions `_read_json` can raise while normalizing entries. -/
inductive PyErr : Type
  | keyError (k : String)
  | valueError
deriving DecidableEq, Repr

mutual
/-- Serialization of one Python value by `json.dump`.  `ArchiveReason` is a
`str`-subclass enum, so a member serializes as its string value. -/
def pvalToJson : PVal → JVal
  | .pnull => .jnull
  | .pbool b => .jbool b
  | .pint n => .jint n
  | .pstr s => .jstr s
  | .plist xs => .jarr (pvalListToJson xs)
  | .pdict kvs => .jobj (pvalObjToJson kvs)
  | .preason r => .jstr r.value

/-- Serialization of a Python list. -/
def pvalListToJson : List PVal → List JVal
  | [] => []
  | x :: xs => pvalToJson x :: pvalListToJson xs

/-- Serialization of a Python dict. -/
def pvalObjToJson : List (String × PVal) → List (String × JVal)
  | [] => []
  | (k, v) :: kvs => (k, pvalToJson v) :: pvalObjToJson kvs
end

mutual
/-- The Python value `json.load` builds for a JSON value (no enums). -/
def jsonToPval : JVal → PVal
  | .jnull => .pnull
  | .jbool b => .pbool b
  | .jint n => .pint n
  | .jstr s => .pstr s
  | .jarr xs => .plist (jsonListToPval xs)
  | .jobj kvs => .pdict (jsonObjToPval kvs)

/-- `json.load` on a JSON array. -/
def jsonListToPval : List JVal → List PVal
  | [] => []
  | x :: xs => jsonToPval x :: jsonListToPval xs

/-- `json.load` on a JSON object. -/
def jsonObjToPval : List (String × JVal) → List (String × PVal)
  | [] => []
  | (k, v) :: kvs => (k, jsonToPval v) :: jsonObjToPval kvs
end

/-- The entry normalization inside `_read_json`'s loop:
`reason = entry["archive_reason"]` (KeyError if the key is missing), then
`entry["archive_reason"] = ArchiveReason(reason) if reason is not None else
None` (`ArchiveReason(x)` raises for any value that is not a member's
string; a non-hashable value would raise TypeError instead of ValueError,
collapsed here into one error). -/
def normalizeEntry (kvs : List (String × JVal)) :
    Except PyErr (List (String × PVal)) :=
  let entry := jsonObjToPval kvs
  match pdictGet entry "archive_reason" with
  | none => .error (.keyError "archive_reason")
  | some PVal.pnull => .ok (pdictSet entry "archive_reason" PVal.pnull)
  | some (PVal.pstr s) =>
    match ArchiveReason.fromString s with
    | some r => .ok (pdictSet entry "archive_reason" (PVal.preason r))
    | none => .error .valueError
  | some _ => .error .valueError

/-- `_read_json` after the I/O: `none` stands for a file that is missing or
fails to parse (→ empty dict with a warning); a parsed document that is not
a dictionary also degrades to empty; otherwise each entry is normalized,
skipping values that are not dicts.  An exception in the loop escapes. -/
def readJsonModel (content : Option JVal) : Except PyErr PyDB :=
  match content with
  | none => .ok []
  | some (JVal.jobj kvs) => readJsonEntries kvs
  | some _ => .ok []
where
  readJsonEntries : List (String × JVal) → Except PyErr PyDB
    | [] => .ok []
    | (k, JVal.jobj entry) :: rest => do
        let e ← normalizeEntry entry
        let r ← readJsonEntries rest
        .ok ((k, e) :: r)
    | (_, _) :: rest => readJsonEntries rest

/-- The per-entry conversion in `_write_json`: if `entry.get("archive_reason")`
is an `ArchiveReason`, replace it by its string value. -/
def convertEntryForWrite (entry : List (String × PVal)) :
    List (String × PVal) :=
  match pdictGet entry "archive_reason" with
  | some (PVal.preason r) => pdictSet entry "archive_reason" (PVal.pstr r.value)
  | _ => entry

/-- `_write_json`: the JSON document written for a partition. -/
def writeJsonModel (db : PyDB) : JVal :=
  JVal.jobj (db.map (fun p =>
    (p.1, JVal.jobj (pvalObjToJson (convertEntryForWrite p.2)))))

/-- `save_tables` at the file level: clear `archive_reason` on active
records (`entry["archive_reason"] = None`), then write both documents. -/
def saveTablesFiles (active archived : PyDB) : JVal × JVal :=
  let normActive := active.map (fun p =>
    (p.1, pdictSet p.2 "archive_reason" PVal.pnull))
  (writeJsonModel normActive, writeJsonModel archived)

/-- `load_tables` at the file level: read both documents. -/
def loadTablesFiles (activeContent archivedContent : Option JVal) :
    Except PyErr (PyDB × PyDB) := do
  let a ← readJsonModel activeContent
  let b ← readJsonModel archivedContent
  .ok (a, b)

/-! ### The dict representation of a structured record -/

/-- A nullable string field as stored. -/
def encodeOptStr : Option String → PVal
  | none => .pnull
  | some s => .pstr s

/-- A nullable int field as stored. -/
def encodeOptNat : Option Nat → PVal
  | none => .pnull
  | some n => .pint (n : Int)

/-- The `archive_reason` field as held in memory. -/
def encodeReason : Option ArchiveReason → PVal
  | none => .pnull
  | some r => .preason r

/-- The dict held for one `PlayerEntry` (`display_name` is `NotRequired`:
absent rather than null when missing; `joined_at` is stored as its ISO
string, rendered here from the abstract timestamp). -/
def encodePlayer (e : PlayerEntry) : PVal :=
  .pdict ([("id", .pint (e.id : Int)), ("joined_at", .pstr (toString e.joined_at))] ++
    (match e.display_name with
     | none => []
     | some s => [("display_name", PVal.pstr s)]))

/-- The dict held for one `TableData` record, in the key order of
`NewTableModal.on_submit`'s `new_table` literal. -/
def encodeRecord (td : TableData) : List (String × PVal) :=
  [("system", .pstr td.system),
   ("infos", .pstr td.infos),
   ("schedule", .pstr td.schedule),
   ("created_at", encodeOptStr td.created_at),
   ("max_players", .pint (td.max_players : Int)),
   ("players", .plist (td.players.map encodePlayer)),
   ("waitlist", .plist (td.waitlist.map encodePlayer)),
   ("creator_id", .pint (td.creator_id : Int)),
   ("message_id", .pint (td.message_id : Int)),
   ("channel_id", .pint (td.channel_id : Int)),
   ("guild_id", .pint (td.guild_id : Int)),
   ("archive_reason", encodeReason td.archive_reason),
   ("archived_at", encodeOptStr td.archived_at),
   ("archived_by", encodeOptNat td.archived_by)]

/-- A whole partition of structured records, as dicts. -/
def encodeDB (db : TablesDB) : PyDB :=
  db.map (fun p => (p.1, encodeRecord p.2))

/-! ## Projections and orders used by the statements -/

/-- The user ids of a seat bucket. -/
def ids (l : List PlayerEntry) : List Nat := l.map (·.id)

/-- The (id, joined_at) signature of a seat bucket; display-name population
leaves it unchanged. -/
def sig (l : List PlayerEntry) : List (Nat × Nat) :=
  l.map (fun e => (e.id, e.joined_at))

/-- Nondecreasing list of naturals. -/
def sortedNat : List Nat → Bool
  | [] => true
  | [_] => true
  | a :: b :: r => decide (a ≤ b) && sortedNat (b :: r)

/-- A seat bucket ordered by `joined_at` ascending. -/
def sortedByJoined (l : List PlayerEntry) : Bool :=
  sortedNat (l.map (·.joined_at))

/-- The per-table uniqueness invariant: each user id occurs at most once
across roster and waitlist combined. -/
def NodupIds (td : TableData) : Prop :=
  (ids td.players ++ ids td.waitlist).Nodup

/-- One externally triggered mutation of a given table. -/
inductive TableOp : Type
  | joinOp (uid : Nat) (name : String) (resolve : Nat → Option String) (now : Nat)
  | leaveOp (uid : Nat) (resolve : Nat → Option String)
  | editOp (systemV scheduleV infosV : String) (maxPlayersInput : Int)

/-- Run one operation against the persisted collections. -/
def applyOp (tid : String) (st : TablesDB × TablesDB) :
    TableOp → TablesDB × TablesDB
  | .joinOp uid name resolve now =>
    let r := join_callback st.1 st.2 tid uid name resolve now
    (r.active, r.archived)
  | .leaveOp uid resolve =>
    let r := leave_callback st.1 st.2 tid uid resolve
    (r.active, r.archived)
  | .editOp s sc i mp =>
    let r := edit_on_submit st.1 st.2 tid s sc i mp
    (r.active, r.archived)

/-- Run a sequence of operations against the persisted collections. -/
def applyOps (tid : String) (st : TablesDB × TablesDB)
    (ops : List TableOp) : TablesDB × TablesDB :=
  ops.foldl (applyOp tid) st

/-- Run a sequence of join calls, each `(uid, name, now)`, against the
persisted collections. -/
def joinSeq (tid : String) (resolve : Nat → Option String)
    (st : TablesDB × TablesDB) : List (Nat × String × Nat) → TablesDB × TablesDB
  | [] => st
  | (uid, name, t) :: rest =>
    let r := join_callback st.1 st.2 tid uid name resolve t
    joinSeq tid resolve (r.active, r.archived) rest

/-! ## Concrete fixtures for scenarios and witnesses -/

/-- A resolver that never finds a display name (resolution failures degrade
to the cached label). -/
def noResolve : Nat → Option String := fun _ => none

/-- A capacity-4 table owned by user 5. -/
def sampleTable : TableData :=
  freshTable "D&D 5e" "One-shot" "Friday 20:00" "2025-01-01T00:00:00Z" 4 5 9

/-- A capacity-1 table owned by user 5, as in the leave/promotion scenario. -/
def capOneTable : TableData :=
  freshTable "Sys" "Story" "Sat" "2025-01-02T00:00:00Z" 1 5 9

/-- A capacity-3 table with roster `[A, B, C]` joined in that order, as in
the edit/demotion scenario. -/
def editScenarioTable : TableData :=
  { freshTable "Sys" "Story" "Sat" "2025-01-02T00:00:00Z" 3 5 9 with
    players := [⟨1, 1, some "A"⟩, ⟨2, 2, some "B"⟩, ⟨3, 3, some "C"⟩] }

/-- The capacity-1 table after A joined (seated) and B joined (waitlisted). -/
def leaveFixture : TableData :=
  { capOneTable with
    players := [⟨1, 1, some "A"⟩], waitlist := [⟨2, 2, some "B"⟩] }

/-! ## Shared dictionary lemmas -/

theorem pdictGet_map_of_any {α : Type} (k : String) (v : α) :
    ∀ (kvs : List (String × α)), kvs.any (fun p => p.1 = k) = true →
      pdictGet (kvs.map (fun p => if p.1 = k then (k, v) else p)) k = some v := by
  intro kvs
  induction kvs with
  | nil => intro h; simp at h
  | cons p t ih =>
    intro h
    by_cases hp : p.1 = k
    · simp [pdictGet, List.find?, hp]
    · simp only [List.any_cons, Bool.or_eq_true, decide_eq_true_eq] at h
      rcases h with h | h
      · exact absurd h hp
      · have := ih h
        simpa [pdictGet, List.find?, hp] using this

theorem pdictGet_append_of_not_any {α : Type} (k : String) (v : α) :
    ∀ (kvs : List (String × α)), kvs.any (fun p => p.1 = k) = false →
      pdictGet (kvs ++ [(k, v)]) k = some v := by
  intro kvs
  induction kvs with
  | nil => intro _; simp [pdictGet, List.find?]
  | cons p t ih =>
    intro h
    simp only [List.any_cons, Bool.or_eq_false_iff, decide_eq_false_iff_not] at h
    have := ih (by simpa using h.2)
    simpa [pdictGet, List.find?, h.1] using this

/-- Dict assignment followed by lookup of the same key. -/
theorem pdictGet_pdictSet_self {α : Type} (kvs : List (String × α)) (k : String) (v : α) :
    pdictGet (pdictSet kvs k v) k = some v := by
  unfold pdictSet
  by_cases h : kvs.any (fun p => p.1 = k)
  · rw [if_pos h]; exact pdictGet_map_of_any k v kvs h
  · rw [if_neg h]
    exact pdictGet_append_of_not_any k v kvs (Bool.of_not_eq_true h)

/-- Lookup of the same key after dict assignment, tables level. -/
theorem dbGet_dbSet_self (db : TablesDB) (k : String) (v : TableData) :
    dbGet (dbSet db k v) k = some v :=
  pdictGet_pdictSet_self db k v

/-- Lookup after `pop` of the same key finds nothing. -/
theorem dbGet_dbPop_self (db : TablesDB) (k : String) :
    dbGet (dbPop db k) k = none := by
  induction db with
  | nil => rfl
  | cons p t ih =>
    by_cases hp : p.1 = k
    · have h1 : dbPop (p :: t) k = dbPop t k := by
        simp [dbPop, List.filter_cons, hp]
      rw [h1]
      exact ih
    · have h1 : dbGet (dbPop (p :: t) k) k = dbGet (dbPop t k) k := by
        simp [dbPop, dbGet, pdictGet, List.filter_cons, List.find?_cons, hp]
      rw [h1]
      exact ih

/-- The active side written by `save_tables` holds the same keys with the
reason cleared. -/
theorem dbGet_save_active (active archived : TablesDB) (k : String) :
    dbGet (save_tables active archived).1 k = (dbGet active k).map clearReason := by
  induction active with
  | nil => rfl
  | cons p t ih =>
    by_cases hp : p.1 = k
    · simp [save_tables, dbGet, pdictGet, List.find?, hp]
    · simpa [save_tables, dbGet, pdictGet, List.find?, hp] using ih

/-- `save_tables` leaves the archived side untouched. -/
theorem save_tables_archived (active archived : TablesDB) :
    (save_tables active archived).2 = archived := rfl

/-! ## C8 — rate limiter window scenario -/

/-- **C8**: with `maxCount = 2` and a 10-second window, two checks within
the window are Allowed, a third within the window is Denied with a
non-negative wait hint and no admission recorded, and a check after the
window has fully elapsed since the oldest admitted timestamp is Allowed
again. -/
theorem rate_limiter_window_scenario :
    (check_rate_limit 2 10 [] 0).allowed = true ∧
    (check_rate_limit 2 10 [] 0).timestamps = [0] ∧
    (check_rate_limit 2 10 [0] 1).allowed = true ∧
    (check_rate_limit 2 10 [0] 1).timestamps = [0, 1] ∧
    (check_rate_limit 2 10 [0, 1] 2).allowed = false ∧
    0 ≤ (check_rate_limit 2 10 [0, 1] 2).wait_seconds ∧
    (check_rate_limit 2 10 [0, 1] 2).timestamps = [0, 1] ∧
    (check_rate_limit 2 10 [0, 1] 11).allowed = true := by
  norm_num [check_rate_limit, pyInt, List.dropWhile]

/-! ## C5 — denied wait hint: truncation, not ceiling -/

/-- **C5**, counterexample: one admitted timestamp at `t = 0`, window 10 s,
`maxCount = 1`, checked at `t = 0.5`.  The remaining wait is 9.5 s; the code
reports `9` (truncation), while the claimed `ceil` would be `10`. -/
theorem rate_limit_wait_truncates_not_ceil :
    (check_rate_limit 1 10 [0] (1/2)).allowed = false ∧
    (check_rate_limit 1 10 [0] (1/2)).wait_seconds = 9 ∧
    max 0 ⌈(0 : ℚ) + 10 - 1/2⌉ = 10 := by
  refine ⟨?_, ?_, ?_⟩
  · norm_num [check_rate_limit, pyInt, List.dropWhile]
  · norm_num [check_rate_limit, pyInt, List.dropWhile]
  · have h : (⌈(0 : ℚ) + 10 - 1/2⌉ : ℤ) = 10 := by
      rw [Int.ceil_eq_iff]
      norm_num
    rw [h]
    decide

/-- If `dropWhile` leaves a non-empty list, its head fails the predicate. -/
theorem dropWhile_head_false {α : Type} (p : α → Bool) :
    ∀ (l : List α) (x : α) (rest : List α),
      l.dropWhile p = x :: rest → p x = false := by
  intro l
  induction l with
  | nil => intro x rest h; simp [List.dropWhile] at h
  | cons a t ih =>
    intro x rest h
    by_cases ha : p a
    · rw [List.dropWhile_cons_of_pos ha] at h
      exact ih x rest h
    · rw [List.dropWhile_cons_of_neg ha] at h
      cases h
      exact Bool.of_not_eq_true ha

/-- **C5**, amended: when the pruned window already holds at least
`maxCount` timestamps, the check is Denied and the reported wait is the
truncation (equivalently, since the remaining time is non-negative, the
floor) of `oldest + window - now`, clamped to be ≥ 0 — not the ceiling. -/
theorem rate_limit_denied_wait_is_truncation
    (maxCommands : Nat) (window : ℚ) (ts : List ℚ) (now : ℚ)
    (hmax : 1 ≤ maxCommands)
    (hlen : maxCommands ≤ (ts.dropWhile (fun t => decide (t < now - window))).length) :
    ∃ oldest rest,
      ts.dropWhile (fun t => decide (t < now - window)) = oldest :: rest ∧
      0 ≤ oldest + window - now ∧
      (check_rate_limit maxCommands window ts now).allowed = false ∧
      (check_rate_limit maxCommands window ts now).wait_seconds
        = max 0 ⌊oldest + window - now⌋ := by
  cases hp : ts.dropWhile (fun t => decide (t < now - window)) with
  | nil =>
    rw [hp] at hlen
    simp at hlen
    omega
  | cons oldest rest =>
    have hhead := dropWhile_head_false _ ts oldest rest hp
    have hnn : 0 ≤ oldest + window - now := by
      have h2 : ¬ (oldest < now - window) := by simpa using hhead
      linarith [not_lt.mp h2]
    have hle : now ≤ oldest + window := by linarith
    rw [hp] at hlen
    have hcond : maxCommands ≤ rest.length + 1 := by simpa using hlen
    refine ⟨oldest, rest, rfl, hnn, ?_, ?_⟩ <;>
      simp [check_rate_limit, hp, hcond, pyInt, hle]

/-- Witness for `rate_limit_denied_wait_is_truncation` at
`maxCount = 1`, `window = 10`, one timestamp `0`, `now = 1/2`. -/
theorem rate_limit_denied_wait_is_truncation_witness :
    (1 ≤ 1 ∧
      1 ≤ (([0] : List ℚ).dropWhile (fun t => decide (t < (1 : ℚ)/2 - 10))).length) ∧
    (∃ oldest rest,
      ([0] : List ℚ).dropWhile (fun t => decide (t < (1 : ℚ)/2 - 10)) = oldest :: rest ∧
      0 ≤ oldest + 10 - (1 : ℚ)/2 ∧
      (check_rate_limit 1 10 [0] ((1 : ℚ)/2)).allowed = false ∧
      (check_rate_limit 1 10 [0] ((1 : ℚ)/2)).wait_seconds
        = max 0 ⌊oldest + 10 - (1 : ℚ)/2⌋) :=
  ⟨⟨le_refl 1, by norm_num [List.dropWhile]⟩,
    rate_limit_denied_wait_is_truncation 1 10 [0] (1/2) (le_refl 1)
      (by norm_num [List.dropWhile])⟩

/-! ## C1 — archive stamps only the reason -/

/-- **C1**, counterexample: the creator (user 5) archives their own active
table; the archived record carries `archive_reason = OWNER` but its
`archived_at` and `archived_by` are still null — the code never stamps
them. -/
theorem archive_leaves_archived_by_null :
    (dbGet (archive_select [("t", sampleTable)] [] "t" 5 false).archived "t").map
        (fun td => (td.archive_reason, td.archived_at, td.archived_by))
      = some (some ArchiveReason.OWNER, none, none) := by
  decide

/-- **C1**, amended: for every active record and permitted actor (creator,
or holder of the pre-resolved moderation permission), the archive operation
removes the record from the active partition and stores it in the archived
partition with `archive_reason` stamped (`OWNER` for the creator, `MOD`
otherwise); `archived_at` and `archived_by` are left exactly as they were. -/
theorem archive_select_moves_and_stamps_reason (active archived : TablesDB)
    (tid : String) (actorId : Nat) (hasMM : Bool) (td : TableData)
    (hget : dbGet active tid = some td)
    (hperm : actorId = td.creator_id ∨ hasMM = true) :
    ∃ r, (archive_select active archived tid actorId hasMM).result = .ok r ∧
      r = (if actorId = td.creator_id then ArchiveReason.OWNER else ArchiveReason.MOD) ∧
      dbGet (archive_select active archived tid actorId hasMM).active tid = none ∧
      dbGet (archive_select active archived tid actorId hasMM).archived tid
        = some { td with archive_reason := some r } := by
  by_cases hc : actorId = td.creator_id
  · have hsel : archive_select active archived tid actorId hasMM =
        { result := .ok .OWNER,
          saves := [save_tables (dbPop active tid)
            (dbSet archived tid { td with archive_reason := some .OWNER })],
          active := (save_tables (dbPop active tid)
            (dbSet archived tid { td with archive_reason := some .OWNER })).1,
          archived := dbSet archived tid { td with archive_reason := some .OWNER } } := by
      unfold archive_select
      rw [hget]
      simp [hc]
      rfl
    rw [hsel]
    refine ⟨.OWNER, rfl, (if_pos hc).symm, ?_, ?_⟩
    · rw [dbGet_save_active, dbGet_dbPop_self]
      rfl
    · exact dbGet_dbSet_self _ _ _
  · have hmm : hasMM = true := hperm.resolve_left hc
    have hsel : archive_select active archived tid actorId hasMM =
        { result := .ok .MOD,
          saves := [save_tables (dbPop active tid)
            (dbSet archived tid { td with archive_reason := some .MOD })],
          active := (save_tables (dbPop active tid)
            (dbSet archived tid { td with archive_reason := some .MOD })).1,
          archived := dbSet archived tid { td with archive_reason := some .MOD } } := by
      unfold archive_select
      rw [hget]
      simp [hc, hmm]
      rfl
    rw [hsel]
    refine ⟨.MOD, rfl, (if_neg hc).symm, ?_, ?_⟩
    · rw [dbGet_save_active, dbGet_dbPop_self]
      rfl
    · exact dbGet_dbSet_self _ _ _

/-- Witness for `archive_select_moves_and_stamps_reason` on `sampleTable`
archived by its creator. -/
theorem archive_select_moves_and_stamps_reason_witness :
    dbGet [("t", sampleTable)] "t" = some sampleTable ∧
    (5 = sampleTable.creator_id ∨ false = true) ∧
    (∃ r, (archive_select [("t", sampleTable)] [] "t" 5 false).result = .ok r ∧
      r = (if 5 = sampleTable.creator_id then ArchiveReason.OWNER else ArchiveReason.MOD) ∧
      dbGet (archive_select [("t", sampleTable)] [] "t" 5 false).active "t" = none ∧
      dbGet (archive_select [("t", sampleTable)] [] "t" 5 false).archived "t"
        = some { sampleTable with archive_reason := some r }) :=
  ⟨by decide, Or.inl (by decide),
    archive_select_moves_and_stamps_reason [("t", sampleTable)] [] "t" 5 false
      sampleTable (by decide) (Or.inl (by decide))⟩

/-! ## C6 — loading a partition with a malformed entry -/

/-- **C6**: corrupt JSON and non-dictionary documents do degrade to an empty
collection, and non-dict entries are skipped — but an entry dict missing the
required `archive_reason` field makes `_read_json` raise `KeyError` instead
of discarding the entry: the load aborts. -/
theorem read_json_missing_reason_raises :
    readJsonModel (some (JVal.jobj [("t1", JVal.jobj [("system", JVal.jstr "x")])]))
      = .error (.keyError "archive_reason") ∧
    readJsonModel none = .ok [] ∧
    readJsonModel (some (JVal.jarr [])) = .ok [] ∧
    readJsonModel (some (JVal.jobj
        [("t1", JVal.jstr "junk"),
         ("t2", JVal.jobj [("system", JVal.jstr "x"), ("archive_reason", JVal.jnull)])]))
      = .ok [("t2", [("system", PVal.pstr "x"), ("archive_reason", PVal.pnull)])] :=
  ⟨rfl, rfl, rfl, rfl⟩

/-! ## C10 — rejected join/leave calls never save -/

/-- **C10**: whenever a join is rejected (table id not active, or actor
already in roster or waitlist) or a leave is rejected (table id not active,
or actor in neither bucket), no `save_tables` call is performed and the
persisted collections are exactly as before the call. -/
theorem failed_signup_ops_do_not_save (active archived : TablesDB)
    (tid : String) (uid : Nat) (name : String)
    (resolve : Nat → Option String) (now : Nat) :
    ((dbGet active tid = none ∨
       ∃ td, dbGet active tid = some td ∧
         (td.players.any (fun e => e.id = uid) = true ∨
          td.waitlist.any (fun e => e.id = uid) = true)) →
      (∃ e, (join_callback active archived tid uid name resolve now).result = .error e) ∧
      (join_callback active archived tid uid name resolve now).saves = [] ∧
      (join_callback active archived tid uid name resolve now).active = active ∧
      (join_callback active archived tid uid name resolve now).archived = archived) ∧
    ((dbGet active tid = none ∨
       ∃ td, dbGet active tid = some td ∧
         td.players.any (fun e => e.id = uid) = false ∧
         td.waitlist.any (fun e => e.id = uid) = false) →
      (∃ e, (leave_callback active archived tid uid resolve).result = .error e) ∧
      (leave_callback active archived tid uid resolve).saves = [] ∧
      (leave_callback active archived tid uid resolve).active = active ∧
      (leave_callback active archived tid uid resolve).archived = archived) := by
  constructor
  · rintro (hnone | ⟨td, hget, hmem⟩)
    · have hj : join_callback active archived tid uid name resolve now =
          ⟨.error .tableGone, [], active, archived⟩ := by
        unfold join_callback
        rw [hnone]
      rw [hj]
      exact ⟨⟨.tableGone, rfl⟩, rfl, rfl, rfl⟩
    · by_cases hp : td.players.any (fun e => e.id = uid) = true
      · have hj : join_callback active archived tid uid name resolve now =
            ⟨.error .alreadySignedUp, [], active, archived⟩ := by
          unfold join_callback
          rw [hget]
          simp [hp]
        rw [hj]
        exact ⟨⟨.alreadySignedUp, rfl⟩, rfl, rfl, rfl⟩
      · have hw : td.waitlist.any (fun e => e.id = uid) = true := by
          rcases hmem with h | h
          · exact absurd h hp
          · exact h
        have hj : join_callback active archived tid uid name resolve now =
            ⟨.error .alreadyOnWaitlist, [], active, archived⟩ := by
          unfold join_callback
          rw [hget]
          simp [Bool.of_not_eq_true hp, hw]
        rw [hj]
        exact ⟨⟨.alreadyOnWaitlist, rfl⟩, rfl, rfl, rfl⟩
  · rintro (hnone | ⟨td, hget, hp, hw⟩)
    · have hl : leave_callback active archived tid uid resolve =
          ⟨.error .notSignedUp, [], active, archived⟩ := by
        unfold leave_callback
        rw [hnone]
      rw [hl]
      exact ⟨⟨.notSignedUp, rfl⟩, rfl, rfl, rfl⟩
    · have hl : leave_callback active archived tid uid resolve =
          ⟨.error .notSignedUp, [], active, archived⟩ := by
        unfold leave_callback
        rw [hget]
        simp [hp, hw]
      rw [hl]
      exact ⟨⟨.notSignedUp, rfl⟩, rfl, rfl, rfl⟩

/-- Witness for `failed_signup_ops_do_not_save`: join and leave against an
empty active collection fail and persist nothing. -/
theorem failed_signup_ops_do_not_save_witness :
    (∃ e, (join_callback [] [] "t" 1 "n" noResolve 0).result = .error e) ∧
    (join_callback [] [] "t" 1 "n" noResolve 0).saves = [] ∧
    (join_callback [] [] "t" 1 "n" noResolve 0).active = [] ∧
    (join_callback [] [] "t" 1 "n" noResolve 0).archived = [] ∧
    (∃ e, (leave_callback [] [] "t" 1 noResolve).result = .error e) ∧
    (leave_callback [] [] "t" 1 noResolve).saves = [] := by
  obtain ⟨h1, h2⟩ := failed_signup_ops_do_not_save [] [] "t" 1 "n" noResolve 0
  have hj := h1 (Or.inl rfl)
  have hl := h2 (Or.inl rfl)
  exact ⟨hj.1, hj.2.1, hj.2.2.1, hj.2.2.2, hl.1, hl.2.1⟩

/-! ## C2 — leave: removal, FIFO promotion, not-in-table error -/

/-- The head of a nondecreasing list of naturals is minimal. -/
theorem sortedNat_head_le : ∀ (l : List Nat) (a : Nat),
    sortedNat (a :: l) = true → ∀ b ∈ l, a ≤ b := by
  intro l
  induction l with
  | nil =>
    intro a _ b hb
    simp at hb
  | cons c t ih =>
    intro a h b hb
    simp only [sortedNat, Bool.and_eq_true, decide_eq_true_eq] at h
    rcases List.mem_cons.mp hb with rfl | hb
    · exact h.1
    · exact le_trans h.1 (ih c h.2 b hb)

/-- In a waitlist sorted by `joined_at`, the head joined no later than any
other entry. -/
theorem sortedByJoined_head_le (w : PlayerEntry) (ws : List PlayerEntry)
    (h : sortedByJoined (w :: ws) = true) :
    ∀ e ∈ ws, w.joined_at ≤ e.joined_at := by
  intro e he
  unfold sortedByJoined at h
  simp only [List.map_cons] at h
  exact sortedNat_head_le _ _ h e.joined_at (List.mem_map_of_mem _ he)

/-- Looking up a record just written through `dbSet` and `save_tables`. -/
theorem dbGet_save_set (active archived : TablesDB) (tid : String)
    (td1 : TableData) :
    dbGet (save_tables (dbSet active tid td1) archived).1 tid
      = some (clearReason td1) := by
  rw [dbGet_save_active]
  rw [show dbGet (dbSet active tid td1) tid = some td1 from dbGet_dbSet_self _ _ _]
  rfl

/-- **C2**: for an active table with waitlist sorted by `joinedAt`: a roster
member leaving is removed and, when the waitlist is non-empty, exactly its
head — an entry of minimal `joinedAt` — is popped and appended to the
roster; a waitlist-only member is removed with no promotion; an uninvolved
actor gets the not-in-table error and nothing is saved.  The concrete
capacity-1 scenario (A seated, B waitlisted, A leaves ⟹ roster `[B]`,
waitlist empty) is included. -/
theorem leave_callback_spec (active archived : TablesDB) (tid : String)
    (uid : Nat) (resolve : Nat → Option String) (td : TableData)
    (hget : dbGet active tid = some td)
    (hsorted : sortedByJoined td.waitlist = true) :
    (∀ w ws, td.players.any (fun e => e.id = uid) = true →
      td.waitlist = w :: ws →
      (leave_callback active archived tid uid resolve).result = .ok (some w) ∧
      (∀ e ∈ ws, w.joined_at ≤ e.joined_at) ∧
      dbGet (leave_callback active archived tid uid resolve).active tid =
        some (clearReason (populateTable resolve { td with
          players := td.players.filter (fun e => ¬ e.id = uid) ++ [w],
          waitlist := ws }))) ∧
    (td.players.any (fun e => e.id = uid) = true → td.waitlist = [] →
      (leave_callback active archived tid uid resolve).result = .ok none ∧
      dbGet (leave_callback active archived tid uid resolve).active tid =
        some (clearReason (populateTable resolve { td with
          players := td.players.filter (fun e => ¬ e.id = uid) }))) ∧
    (td.players.any (fun e => e.id = uid) = false →
      td.waitlist.any (fun e => e.id = uid) = true →
      (leave_callback active archived tid uid resolve).result = .ok none ∧
      dbGet (leave_callback active archived tid uid resolve).active tid =
        some (clearReason (populateTable resolve { td with
          waitlist := td.waitlist.filter (fun e => ¬ e.id = uid) }))) ∧
    (td.players.any (fun e => e.id = uid) = false →
      td.waitlist.any (fun e => e.id = uid) = false →
      (leave_callback active archived tid uid resolve).result = .error .notSignedUp ∧
      (leave_callback active archived tid uid resolve).saves = []) ∧
    ((join_callback [("t", capOneTable)] [] "t" 1 "A" noResolve 1).result
        = .ok .Seated ∧
      ((join_callback
          (join_callback [("t", capOneTable)] [] "t" 1 "A" noResolve 1).active
          [] "t" 2 "B" noResolve 2).result = .ok .Waitlisted) ∧
      (leave_callback
          (join_callback
            (join_callback [("t", capOneTable)] [] "t" 1 "A" noResolve 1).active
            [] "t" 2 "B" noResolve 2).active
          [] "t" 1 noResolve).result = .ok (some ⟨2, 2, some "B"⟩) ∧
      (dbGet (leave_callback
          (join_callback
            (join_callback [("t", capOneTable)] [] "t" 1 "A" noResolve 1).active
            [] "t" 2 "B" noResolve 2).active
          [] "t" 1 noResolve).active "t").map
        (fun t => (ids t.players, ids t.waitlist)) = some ([2], [])) := by
  refine ⟨?_, ?_, ?_, ?_, ?_⟩
  · intro w ws hp hw
    have hsel : leave_callback active archived tid uid resolve =
        (let td1 := populateTable resolve { td with
            players := td.players.filter (fun e => ¬ e.id = uid) ++ [w],
            waitlist := ws }
         let st := save_tables (dbSet active tid td1) archived
         ⟨.ok (some w), [st], st.1, st.2⟩) := by
      unfold leave_callback
      rw [hget]
      simp [hp, hw]
    rw [hsel]
    exact ⟨rfl, sortedByJoined_head_le w ws (hw ▸ hsorted),
      dbGet_save_set active archived tid (populateTable resolve { td with
        players := td.players.filter (fun e => ¬ e.id = uid) ++ [w],
        waitlist := ws })⟩
  · intro hp hw
    have hsel : leave_callback active archived tid uid resolve =
        (let td1 := populateTable resolve { td with
            players := td.players.filter (fun e => ¬ e.id = uid) }
         let st := save_tables (dbSet active tid td1) archived
         ⟨.ok none, [st], st.1, st.2⟩) := by
      unfold leave_callback
      rw [hget]
      simp [hp, hw]
    rw [hsel]
    exact ⟨rfl, dbGet_save_set active archived tid (populateTable resolve { td with
      players := td.players.filter (fun e => ¬ e.id = uid) })⟩
  · intro hp hw
    have hsel : leave_callback active archived tid uid resolve =
        (let td1 := populateTable resolve { td with
            waitlist := td.waitlist.filter (fun e => ¬ e.id = uid) }
         let st := save_tables (dbSet active tid td1) archived
         ⟨.ok none, [st], st.1, st.2⟩) := by
      unfold leave_callback
      rw [hget]
      simp [hp, hw]
    rw [hsel]
    exact ⟨rfl, dbGet_save_set active archived tid (populateTable resolve { td with
      waitlist := td.waitlist.filter (fun e => ¬ e.id = uid) })⟩
  · intro hp hw
    have hsel : leave_callback active archived tid uid resolve =
        ⟨.error .notSignedUp, [], active, archived⟩ := by
      unfold leave_callback
      rw [hget]
      simp [hp, hw]
    rw [hsel]
    exact ⟨rfl, rfl⟩
  · exact ⟨rfl, rfl, rfl, rfl⟩

/-- Witness for `leave_callback_spec`: A leaves `leaveFixture`; B is
promoted. -/
theorem leave_callback_spec_witness :
    dbGet [("t", leaveFixture)] "t" = some leaveFixture ∧
    sortedByJoined leaveFixture.waitlist = true ∧
    (leave_callback [("t", leaveFixture)] [] "t" 1 noResolve).result
      = .ok (some ⟨2, 2, some "B"⟩) := by
  obtain ⟨h1, -⟩ := leave_callback_spec [("t", leaveFixture)] [] "t" 1 noResolve
    leaveFixture (by decide) (by decide)
  have := h1 ⟨2, 2, some "B"⟩ [] (by decide) (by decide)
  exact ⟨by decide, by decide, this.1⟩

/-! ## C3 — join: duplicate rejection, seat-or-waitlist, fill order -/

/-- Display-name population does not change an entry's id. -/
theorem populateEntry_id (resolve : Nat → Option String) (e : PlayerEntry) :
    (populateEntry resolve e).id = e.id := by
  by_cases h : pyTruthy e.display_name
  · simp [populateEntry, h]
  · cases hr : resolve e.id with
    | none => simp [populateEntry, h, hr]
    | some n => by_cases hn : n = "" <;> simp [populateEntry, h, hr, hn]

/-- Display-name population does not change an entry's `joined_at`. -/
theorem populateEntry_joined (resolve : Nat → Option String) (e : PlayerEntry) :
    (populateEntry resolve e).joined_at = e.joined_at := by
  by_cases h : pyTruthy e.display_name
  · simp [populateEntry, h]
  · cases hr : resolve e.id with
    | none => simp [populateEntry, h, hr]
    | some n => by_cases hn : n = "" <;> simp [populateEntry, h, hr, hn]

/-- Population preserves the (id, joined_at) signature of a bucket. -/
theorem sig_map_populate (resolve : Nat → Option String) :
    ∀ l : List PlayerEntry, sig (l.map (populateEntry resolve)) = sig l := by
  intro l
  induction l with
  | nil => rfl
  | cons e t ih =>
    simp only [List.map_cons, sig, List.map] at *
    rw [populateEntry_id, populateEntry_joined]
    exact congrArg _ ih

/-- Population preserves the ids of a bucket. -/
theorem ids_map_populate (resolve : Nat → Option String) :
    ∀ l : List PlayerEntry, ids (l.map (populateEntry resolve)) = ids l := by
  intro l
  induction l with
  | nil => rfl
  | cons e t ih =>
    simp only [List.map_cons, ids, List.map] at *
    rw [populateEntry_id]
    exact congrArg _ ih

/-- The `joined_at` column is the second column of the signature. -/
theorem joined_eq_sig_snd (l : List PlayerEntry) :
    l.map (fun e => e.joined_at) = (sig l).map (fun p => p.2) := by
  unfold sig
  rw [List.map_map]
  rfl

/-- The bucket-membership guard of the callbacks, as id membership. -/
theorem any_id_eq_false_iff (l : List PlayerEntry) (uid : Nat) :
    l.any (fun e => e.id = uid) = false ↔ ¬ uid ∈ ids l := by
  simp only [List.any_eq_false, decide_eq_true_eq, ids, List.mem_map]
  constructor
  · rintro h ⟨e, he, rfl⟩
    exact h e he rfl
  · intro h e he heq
    exact h ⟨e, he, heq⟩

/-- A nondecreasing list stays nondecreasing after dropping its head. -/
theorem sortedNat_of_cons (a : Nat) (l : List Nat)
    (h : sortedNat (a :: l) = true) : sortedNat l = true := by
  cases l with
  | nil => rfl
  | cons b t =>
    simp only [sortedNat, Bool.and_eq_true] at h
    exact h.2

/-- A nondecreasing list stays nondecreasing after `drop`. -/
theorem sortedNat_drop : ∀ (n : Nat) (l : List Nat),
    sortedNat l = true → sortedNat (l.drop n) = true
  | 0, _, h => h
  | _ + 1, [], _ => rfl
  | n + 1, a :: l, h => sortedNat_drop n l (sortedNat_of_cons a l h)

/-- Appending an element no smaller than every member keeps a list
nondecreasing. -/
theorem sortedNat_append_last : ∀ (l : List Nat) (a : Nat),
    sortedNat l = true → (∀ b ∈ l, b ≤ a) → sortedNat (l ++ [a]) = true := by
  intro l
  induction l with
  | nil => intro a _ _; rfl
  | cons b t ih =>
    intro a h hle
    cases t with
    | nil =>
      simp only [List.cons_append, List.nil_append, sortedNat,
        Bool.and_eq_true, decide_eq_true_eq]
      exact ⟨hle b (by simp), trivial⟩
    | cons c t2 =>
      simp only [sortedNat, Bool.and_eq_true, decide_eq_true_eq] at h
      have hrest := ih a h.2 (fun x hx => hle x (List.mem_cons_of_mem _ hx))
      simp only [List.cons_append, sortedNat, Bool.and_eq_true, decide_eq_true_eq]
      refine ⟨h.1, ?_⟩
      simpa using hrest

/-- The waitlisted branch of `join_callback`, characterized. -/
theorem join_callback_waitlisted (active archived : TablesDB) (tid : String)
    (uid : Nat) (name : String) (resolve : Nat → Option String) (now : Nat)
    (td : TableData) (hget : dbGet active tid = some td)
    (hp : td.players.any (fun e => e.id = uid) = false)
    (hw : td.waitlist.any (fun e => e.id = uid) = false)
    (hfull : td.max_players ≤ td.players.length) :
    join_callback active archived tid uid name resolve now =
      (let td1 := populateTable resolve { td with
          waitlist := td.waitlist ++ [⟨uid, now, some name⟩] }
       let st := save_tables (dbSet active tid td1) archived
       ⟨.ok .Waitlisted, [st], st.1, st.2⟩) := by
  unfold join_callback
  rw [hget]
  simp [hp, hw, hfull]

/-- The seated branch of `join_callback`, characterized. -/
theorem join_callback_seated (active archived : TablesDB) (tid : String)
    (uid : Nat) (name : String) (resolve : Nat → Option String) (now : Nat)
    (td : TableData) (hget : dbGet active tid = some td)
    (hp : td.players.any (fun e => e.id = uid) = false)
    (hw : td.waitlist.any (fun e => e.id = uid) = false)
    (hlt : td.players.length < td.max_players) :
    join_callback active archived tid uid name resolve now =
      (let td1 := populateTable resolve { td with
          players := td.players ++ [⟨uid, now, some name⟩] }
       let st := save_tables (dbSet active tid td1) archived
       ⟨.ok .Seated, [st], st.1, st.2⟩) := by
  unfold join_callback
  rw [hget]
  simp [hp, hw, Nat.not_le.mpr hlt]

/-- `sig` distributes over append. -/
theorem sig_append (l1 l2 : List PlayerEntry) :
    sig (l1 ++ l2) = sig l1 ++ sig l2 :=
  List.map_append _ l1 l2

/-- `ids` distributes over append. -/
theorem ids_append (l1 l2 : List PlayerEntry) :
    ids (l1 ++ l2) = ids l1 ++ ids l2 :=
  List.map_append _ l1 l2

/-- `sig` of the empty bucket. -/
theorem sig_nil : sig [] = [] := rfl

/-- Running a sequence of fresh, pairwise-distinct joiners against one
table: the first `capacity - len(roster)` of them extend the roster in
order, the remainder extend the waitlist in order. -/
theorem joinSeq_invariant (tid : String) (resolve : Nat → Option String) :
    ∀ (joins : List (Nat × String × Nat)) (active archived : TablesDB) (td : TableData),
      dbGet active tid = some td →
      (∀ j ∈ joins, ¬ j.1 ∈ ids td.players ∧ ¬ j.1 ∈ ids td.waitlist) →
      (joins.map (fun j => j.1)).Nodup →
      ∃ td', dbGet (joinSeq tid resolve (active, archived) joins).1 tid = some td' ∧
        td'.max_players = td.max_players ∧
        sig td'.players = sig td.players
          ++ (joins.take (td.max_players - td.players.length)).map (fun j => (j.1, j.2.2)) ∧
        sig td'.waitlist = sig td.waitlist
          ++ (joins.drop (td.max_players - td.players.length)).map (fun j => (j.1, j.2.2)) := by
  intro joins
  induction joins with
  | nil =>
    intro active archived td hget _ _
    refine ⟨td, ?_, rfl, by simp, by simp⟩
    simpa [joinSeq] using hget
  | cons j rest ih =>
    obtain ⟨uid, nm, t⟩ := j
    intro active archived td hget hfresh hnodup
    have hfr := hfresh (uid, nm, t) (List.mem_cons_self _ rest)
    have hp : td.players.any (fun e => e.id = uid) = false :=
      (any_id_eq_false_iff _ _).mpr hfr.1
    have hw : td.waitlist.any (fun e => e.id = uid) = false :=
      (any_id_eq_false_iff _ _).mpr hfr.2
    have hmapcons : (((uid, nm, t) :: rest).map (fun j => j.1))
        = uid :: rest.map (fun j => j.1) := rfl
    rw [hmapcons] at hnodup
    have hnodup2 := List.nodup_cons.mp hnodup
    have hjne : ∀ j' ∈ rest, j'.1 ≠ uid := by
      intro j' hj' heq
      exact hnodup2.1 (heq ▸ List.mem_map_of_mem (fun j => j.1) hj')
    by_cases hfull : td.max_players ≤ td.players.length
    · -- roster full: the joiner is appended to the waitlist
      have hsel := join_callback_waitlisted active archived tid uid nm resolve t
        td hget hp hw hfull
      have hget' : dbGet (join_callback active archived tid uid nm resolve t).active tid
          = some (clearReason (populateTable resolve { td with
              waitlist := td.waitlist ++ [⟨uid, t, some nm⟩] })) := by
        rw [hsel]
        exact dbGet_save_set active archived tid _
      have hfresh' : ∀ j' ∈ rest,
          ¬ j'.1 ∈ ids (clearReason (populateTable resolve { td with
              waitlist := td.waitlist ++ [⟨uid, t, some nm⟩] })).players ∧
          ¬ j'.1 ∈ ids (clearReason (populateTable resolve { td with
              waitlist := td.waitlist ++ [⟨uid, t, some nm⟩] })).waitlist := by
        intro j' hj'
        have hr := hfresh j' (List.mem_cons_of_mem _ hj')
        constructor
        · simpa [clearReason, populateTable, ids_map_populate] using hr.1
        · simp only [clearReason, populateTable, ids_map_populate, ids_append]
          simp only [List.mem_append]
          rintro (hmem | hmem)
          · exact hr.2 hmem
          · simp [ids] at hmem
            exact hjne j' hj' hmem
      obtain ⟨td', h1, h2, h3, h4⟩ := ih
        (join_callback active archived tid uid nm resolve t).active
        (join_callback active archived tid uid nm resolve t).archived
        _ hget' hfresh' hnodup2.2
      simp only [clearReason, populateTable, List.length_map, sig_map_populate,
        sig_append] at h2 h3 h4
      have hc0 : td.max_players - td.players.length = 0 := Nat.sub_eq_zero_of_le hfull
      rw [hc0] at h3 h4
      refine ⟨td', h1, by rw [h2], ?_, ?_⟩
      · rw [h3, hc0]
        simp
      · rw [h4, hc0]
        simp [sig]
    · -- free seat: the joiner is appended to the roster
      have hlt : td.players.length < td.max_players := Nat.not_le.mp hfull
      have hsel := join_callback_seated active archived tid uid nm resolve t
        td hget hp hw hlt
      have hget' : dbGet (join_callback active archived tid uid nm resolve t).active tid
          = some (clearReason (populateTable resolve { td with
              players := td.players ++ [⟨uid, t, some nm⟩] })) := by
        rw [hsel]
        exact dbGet_save_set active archived tid _
      have hfresh' : ∀ j' ∈ rest,
          ¬ j'.1 ∈ ids (clearReason (populateTable resolve { td with
              players := td.players ++ [⟨uid, t, some nm⟩] })).players ∧
          ¬ j'.1 ∈ ids (clearReason (populateTable resolve { td with
              players := td.players ++ [⟨uid, t, some nm⟩] })).waitlist := by
        intro j' hj'
        have hr := hfresh j' (List.mem_cons_of_mem _ hj')
        constructor
        · simp only [clearReason, populateTable, ids_map_populate, ids_append]
          simp only [List.mem_append]
          rintro (hmem | hmem)
          · exact hr.1 hmem
          · simp [ids] at hmem
            exact hjne j' hj' hmem
        · simpa [clearReason, populateTable, ids_map_populate] using hr.2
      obtain ⟨td', h1, h2, h3, h4⟩ := ih
        (join_callback active archived tid uid nm resolve t).active
        (join_callback active archived tid uid nm resolve t).archived
        _ hget' hfresh' hnodup2.2
      simp only [clearReason, populateTable, List.length_map, List.length_append,
        List.length_cons, List.length_nil, sig_map_populate, sig_append] at h2 h3 h4
      have hcp : td.max_players - td.players.length
          = (td.max_players - (td.players.length + 1)) + 1 := by omega
      refine ⟨td', h1, by rw [h2], ?_, ?_⟩
      · rw [h3, hcp]
        simp [sig]
      · rw [h4, hcp]
        rfl

/-- **C3**: join rejects an actor already in roster or waitlist without
saving; otherwise it seats the actor (roster strictly below capacity,
`joinedAt = now`) or waitlists them (roster full), keeping the waitlist
sorted when the new timestamp is no older than the existing ones.  Moreover,
for every sequence of at least `capacity` joins by pairwise-distinct actors
at nondecreasing times against a fresh table, the final roster holds exactly
the first `capacity` joiners in order and the remainder form the waitlist in
join order, sorted by join time. -/
theorem join_callback_spec (active archived : TablesDB) (tid : String)
    (uid : Nat) (name : String) (resolve : Nat → Option String) (now : Nat)
    (td : TableData) (hget : dbGet active tid = some td) :
    (td.players.any (fun e => e.id = uid) = true →
      (join_callback active archived tid uid name resolve now).result
        = .error .alreadySignedUp ∧
      (join_callback active archived tid uid name resolve now).saves = []) ∧
    (td.players.any (fun e => e.id = uid) = false →
      td.waitlist.any (fun e => e.id = uid) = true →
      (join_callback active archived tid uid name resolve now).result
        = .error .alreadyOnWaitlist ∧
      (join_callback active archived tid uid name resolve now).saves = []) ∧
    (td.players.any (fun e => e.id = uid) = false →
      td.waitlist.any (fun e => e.id = uid) = false →
      td.players.length < td.max_players →
      (join_callback active archived tid uid name resolve now).result = .ok .Seated ∧
      dbGet (join_callback active archived tid uid name resolve now).active tid
        = some (clearReason (populateTable resolve { td with
            players := td.players ++ [⟨uid, now, some name⟩] }))) ∧
    (td.players.any (fun e => e.id = uid) = false →
      td.waitlist.any (fun e => e.id = uid) = false →
      td.max_players ≤ td.players.length →
      (join_callback active archived tid uid name resolve now).result = .ok .Waitlisted ∧
      dbGet (join_callback active archived tid uid name resolve now).active tid
        = some (clearReason (populateTable resolve { td with
            waitlist := td.waitlist ++ [⟨uid, now, some name⟩] })) ∧
      (sortedByJoined td.waitlist = true →
        (∀ e ∈ td.waitlist, e.joined_at ≤ now) →
        sortedByJoined (clearReason (populateTable resolve { td with
            waitlist := td.waitlist ++ [⟨uid, now, some name⟩] })).waitlist = true)) ∧
    (∀ (joins : List (Nat × String × Nat)) (c : Nat)
        (sv iv scv ca : String) (creator guild : Nat),
      (joins.map (fun j => j.1)).Nodup →
      sortedNat (joins.map (fun j => j.2.2)) = true →
      c ≤ joins.length →
      ∃ td', dbGet (joinSeq tid resolve
          (dbSet active tid (freshTable sv iv scv ca c creator guild), archived)
          joins).1 tid = some td' ∧
        td'.players.length = c ∧
        sig td'.players = (joins.take c).map (fun j => (j.1, j.2.2)) ∧
        sig td'.waitlist = (joins.drop c).map (fun j => (j.1, j.2.2)) ∧
        sortedByJoined td'.waitlist = true) := by
  refine ⟨?_, ?_, ?_, ?_, ?_⟩
  · intro hp
    have hsel : join_callback active archived tid uid name resolve now =
        ⟨.error .alreadySignedUp, [], active, archived⟩ := by
      unfold join_callback
      rw [hget]
      simp [hp]
    rw [hsel]
    exact ⟨rfl, rfl⟩
  · intro hp hw
    have hsel : join_callback active archived tid uid name resolve now =
        ⟨.error .alreadyOnWaitlist, [], active, archived⟩ := by
      unfold join_callback
      rw [hget]
      simp [hp, hw]
    rw [hsel]
    exact ⟨rfl, rfl⟩
  · intro hp hw hlt
    rw [join_callback_seated active archived tid uid name resolve now td hget hp hw hlt]
    exact ⟨rfl, dbGet_save_set active archived tid _⟩
  · intro hp hw hfull
    rw [join_callback_waitlisted active archived tid uid name resolve now td hget hp hw hfull]
    refine ⟨rfl, dbGet_save_set active archived tid _, ?_⟩
    intro hsorted hle
    unfold sortedByJoined at *
    simp only [clearReason, populateTable]
    rw [joined_eq_sig_snd, sig_map_populate, sig_append]
    rw [joined_eq_sig_snd] at hsorted
    rw [List.map_append]
    refine sortedNat_append_last _ _ ?_ ?_
    · simpa using hsorted
    · intro b hb
      simp only [List.mem_map] at hb
      obtain ⟨q, hq, rfl⟩ := hb
      simp only [sig, List.mem_map] at hq
      obtain ⟨pe, hpe, rfl⟩ := hq
      exact hle pe hpe
  · intro joins c sv iv scv ca creator guild hnodup hsorted hc
    have hget0 : dbGet (dbSet active tid (freshTable sv iv scv ca c creator guild)) tid
        = some (freshTable sv iv scv ca c creator guild) := dbGet_dbSet_self _ _ _
    have hfresh0 : ∀ j ∈ joins,
        ¬ j.1 ∈ ids (freshTable sv iv scv ca c creator guild).players ∧
        ¬ j.1 ∈ ids (freshTable sv iv scv ca c creator guild).waitlist := by
      intro j _
      simp [freshTable, ids]
    obtain ⟨td', h1, h2, h3, h4⟩ := joinSeq_invariant tid resolve joins
      (dbSet active tid (freshTable sv iv scv ca c creator guild)) archived
      _ hget0 hfresh0 hnodup
    simp only [freshTable, sig_nil, List.length_nil, Nat.sub_zero,
      List.nil_append] at h3 h4
    refine ⟨td', h1, ?_, h3, h4, ?_⟩
    · have hlen : (sig td'.players).length = td'.players.length := List.length_map _ _
      rw [h3] at hlen
      simp only [List.length_map, List.length_take] at hlen
      omega
    · unfold sortedByJoined
      rw [joined_eq_sig_snd, h4, List.map_map]
      rw [show ((fun p => p.2) ∘ fun j : Nat × String × Nat => (j.1, j.2.2))
          = fun j : Nat × String × Nat => j.2.2 from rfl]
      rw [List.map_drop]
      exact sortedNat_drop c _ hsorted

/-- Witness for `join_callback_spec`: user 7 joins `sampleTable` (empty,
capacity 4) and is seated; three distinct joiners against a fresh
capacity-2 table fill the roster with the first two and waitlist the
third. -/
theorem join_callback_spec_witness :
    dbGet [("t", sampleTable)] "t" = some sampleTable ∧
    (join_callback [("t", sampleTable)] [] "t" 7 "G" noResolve 3).result
      = .ok .Seated ∧
    (∃ td', dbGet (joinSeq "t" noResolve
        (dbSet [] "t" (freshTable "s" "i" "sc" "c" 2 5 9), [])
        [(1, "A", 1), (2, "B", 2), (3, "C", 3)]).1 "t" = some td' ∧
      td'.players.length = 2 ∧
      sig td'.players = [(1, 1), (2, 2)] ∧
      sig td'.waitlist = [(3, 3)] ∧
      sortedByJoined td'.waitlist = true) := by
  have h := join_callback_spec [("t", sampleTable)] [] "t" 7 "G" noResolve 3
    sampleTable (by decide)
  refine ⟨by decide, (h.2.2.1 (by decide) (by decide) (by decide)).1, ?_⟩
  have h5 := h.2.2.2.2 [(1, "A", 1), (2, "B", 2), (3, "C", 3)] 2
    "s" "i" "sc" "c" 5 9 (by decide) (by decide) (by decide)
  obtain ⟨td', h1, h2, h3, h4, h6⟩ := h5
  exact ⟨td', h1, h2, h3, h4, h6⟩

/-! ## C4 — edit below roster size: pop-from-end demotion, re-sorted waitlist -/

/-- The demotion loop pops the roster's tail down to the capacity, recording
the popped entries in order: it computes the prefix/reversed-suffix split. -/
theorem demoteLoop_eq (maxP : Nat) : ∀ (n : Nat) (players moved : List PlayerEntry),
    players.length = maxP + n →
    demoteLoop maxP players moved
      = (players.take maxP, moved ++ (players.drop maxP).reverse) := by
  intro n
  induction n with
  | zero =>
    intro players moved hlen
    unfold demoteLoop
    rw [dif_neg (by omega)]
    rw [List.take_of_length_le (by omega), List.drop_of_length_le (by omega)]
    simp
  | succ n ihn =>
    intro players moved hlen
    have hne : players ≠ [] := by
      intro h
      rw [h] at hlen
      simp only [List.length_nil] at hlen
      omega
    have hdl : players.dropLast.length = maxP + n := by
      rw [List.length_dropLast]
      omega
    unfold demoteLoop
    rw [dif_pos (by omega)]
    rw [ihn players.dropLast _ hdl]
    have hsplit := List.dropLast_append_getLast hne
    have htake : players.take maxP = players.dropLast.take maxP := by
      conv_lhs => rw [← hsplit]
      rw [List.take_append_of_le_length (by omega)]
    have hdrop : players.drop maxP = players.dropLast.drop maxP ++ [players.getLast hne] := by
      conv_lhs => rw [← hsplit]
      rw [List.drop_append_of_le_length (by omega)]
    rw [htake, hdrop]
    simp

/-- Unfolding equation of `insertByJoined` on a cons cell. -/
theorem insertByJoined_cons (e x : PlayerEntry) (xs : List PlayerEntry) :
    insertByJoined e (x :: xs)
      = if x.joined_at < e.joined_at then x :: insertByJoined e xs
        else e :: x :: xs := rfl

/-- The head of an insertion is the new element or the old head. -/
theorem insertByJoined_head (e : PlayerEntry) : ∀ (xs : List PlayerEntry)
    (z : PlayerEntry) (zs : List PlayerEntry),
    insertByJoined e xs = z :: zs → z = e ∨ ∃ tl, xs = z :: tl := by
  intro xs z zs h
  cases xs with
  | nil =>
    simp only [insertByJoined] at h
    cases h
    exact Or.inl rfl
  | cons x t =>
    rw [insertByJoined_cons] at h
    by_cases hx : x.joined_at < e.joined_at
    · rw [if_pos hx] at h
      cases h
      exact Or.inr ⟨t, rfl⟩
    · rw [if_neg hx] at h
      cases h
      exact Or.inl rfl

/-- Two sorted leading entries are ordered. -/
theorem sortedByJoined_cons_cons (x z : PlayerEntry) (tl : List PlayerEntry)
    (h : sortedByJoined (x :: z :: tl) = true) : x.joined_at ≤ z.joined_at := by
  unfold sortedByJoined at h
  simp only [List.map_cons, sortedNat, Bool.and_eq_true, decide_eq_true_eq] at h
  exact h.1

/-- Rebuild sortedness from an ordered head pair. -/
theorem sortedByJoined_cons_of (x z : PlayerEntry) (zs : List PlayerEntry)
    (hxz : x.joined_at ≤ z.joined_at)
    (h : sortedByJoined (z :: zs) = true) :
    sortedByJoined (x :: z :: zs) = true := by
  unfold sortedByJoined at *
  simp only [List.map_cons, sortedNat, Bool.and_eq_true, decide_eq_true_eq] at *
  exact ⟨hxz, h⟩

/-- The tail of a sorted bucket is sorted. -/
theorem sortedByJoined_of_cons (x : PlayerEntry) (xs : List PlayerEntry)
    (h : sortedByJoined (x :: xs) = true) : sortedByJoined xs = true := by
  unfold sortedByJoined at *
  exact sortedNat_of_cons _ _ (by simpa using h)

/-- Stable insertion preserves sortedness by `joined_at`. -/
theorem insertByJoined_sorted (e : PlayerEntry) :
    ∀ l, sortedByJoined l = true → sortedByJoined (insertByJoined e l) = true := by
  intro l
  induction l with
  | nil => intro _; rfl
  | cons x xs ih =>
    intro h
    have hxs : sortedByJoined xs = true := sortedByJoined_of_cons x xs h
    rw [insertByJoined_cons]
    by_cases hx : x.joined_at < e.joined_at
    · rw [if_pos hx]
      cases hins : insertByJoined e xs with
      | nil => rfl
      | cons z zs =>
        have h1 : sortedByJoined (z :: zs) = true := hins ▸ ih hxs
        have h2 : x.joined_at ≤ z.joined_at := by
          rcases insertByJoined_head e xs z zs hins with rfl | ⟨tl, htl⟩
          · exact le_of_lt hx
          · exact sortedByJoined_cons_cons x z tl (htl ▸ h)
        exact sortedByJoined_cons_of x z zs h2 h1
    · rw [if_neg hx]
      exact sortedByJoined_cons_of e x xs (Nat.le_of_not_lt hx) h

/-- The stable sort used by `edit` produces a `joined_at`-sorted bucket. -/
theorem sortByJoined_sorted : ∀ l, sortedByJoined (sortByJoined l) = true := by
  intro l
  induction l with
  | nil => rfl
  | cons x xs ih => exact insertByJoined_sorted x (sortByJoined xs) ih

/-- Insertion is a permutation. -/
theorem insertByJoined_perm (e : PlayerEntry) :
    ∀ l, (insertByJoined e l).Perm (e :: l) := by
  intro l
  induction l with
  | nil => exact List.Perm.refl _
  | cons x xs ih =>
    rw [insertByJoined_cons]
    by_cases hx : x.joined_at < e.joined_at
    · rw [if_pos hx]
      exact (ih.cons x).trans (List.Perm.swap e x xs)
    · rw [if_neg hx]

/-- The stable sort is a permutation. -/
theorem sortByJoined_perm : ∀ l, (sortByJoined l).Perm l := by
  intro l
  induction l with
  | nil => exact List.Perm.refl _
  | cons x xs ih => exact (insertByJoined_perm x (sortByJoined xs)).trans (ih.cons x)

/-- The capacity-reduction branch of `EditTableModal.on_submit`,
characterized. -/
theorem edit_on_submit_demote_branch (active archived : TablesDB) (tid : String)
    (sv scv iv : String) (mpIn : Int) (td : TableData)
    (hget : dbGet active tid = some td)
    (h1 : 0 < mpIn) (h2 : mpIn ≤ 20)
    (hsv : ¬ sv = "") (hscv : ¬ scv = "") (hiv : ¬ iv = "")
    (hlsv : sv.length ≤ 100) (hlscv : scv.length ≤ 120) (hliv : iv.length ≤ 1024)
    (hlt : mpIn.toNat < td.players.length) :
    edit_on_submit active archived tid sv scv iv mpIn =
      (let pm := demoteLoop mpIn.toNat td.players []
       let td1 : TableData := { td with
         system := sv, schedule := scv, infos := iv, max_players := mpIn.toNat,
         players := pm.1, waitlist := sortByJoined (td.waitlist ++ pm.2) }
       let st := save_tables (dbSet active tid td1) archived
       ⟨.ok pm.2, [st], st.1, st.2⟩) := by
  unfold edit_on_submit
  rw [if_neg (by omega), if_neg (by omega), if_neg hsv, if_neg hscv, if_neg hiv,
    if_neg (by omega), if_neg (by omega), if_neg (by omega), hget]
  simp [hlt]

/-- The general content of C4, as a reusable lemma. -/
theorem edit_demote_general (active archived : TablesDB) (tid : String)
    (sv scv iv : String) (mpIn : Int) (td : TableData)
    (hget : dbGet active tid = some td)
    (h1 : 0 < mpIn) (h2 : mpIn ≤ 20)
    (hsv : ¬ sv = "") (hscv : ¬ scv = "") (hiv : ¬ iv = "")
    (hlsv : sv.length ≤ 100) (hlscv : scv.length ≤ 120) (hliv : iv.length ≤ 1024)
    (hlt : mpIn.toNat < td.players.length) :
    ∃ demoted,
      (edit_on_submit active archived tid sv scv iv mpIn).result = .ok demoted ∧
      demoted = (td.players.drop mpIn.toNat).reverse ∧
      demoted.length = td.players.length - mpIn.toNat ∧
      ∃ td', dbGet (edit_on_submit active archived tid sv scv iv mpIn).active tid
          = some td' ∧
        td'.players = td.players.take mpIn.toNat ∧
        td'.max_players = mpIn.toNat ∧
        td'.waitlist = sortByJoined (td.waitlist ++ demoted) ∧
        td'.waitlist.Perm (td.waitlist ++ demoted) ∧
        sortedByJoined td'.waitlist = true := by
  have hdl := demoteLoop_eq mpIn.toNat (td.players.length - mpIn.toNat)
    td.players [] (by omega)
  rw [edit_on_submit_demote_branch active archived tid sv scv iv mpIn td hget
    h1 h2 hsv hscv hiv hlsv hlscv hliv hlt]
  refine ⟨(td.players.drop mpIn.toNat).reverse, ?_, rfl, ?_, ?_⟩
  · show Except.ok (demoteLoop mpIn.toNat td.players []).2 = _
    rw [hdl]
    simp
  · rw [List.length_reverse, List.length_drop]
  · refine ⟨clearReason { td with
      system := sv, schedule := scv, infos := iv, max_players := mpIn.toNat,
      players := (demoteLoop mpIn.toNat td.players []).1,
      waitlist := sortByJoined (td.waitlist ++ (demoteLoop mpIn.toNat td.players []).2) },
      dbGet_save_set active archived tid _, ?_, rfl, ?_, ?_, ?_⟩
    · show (demoteLoop mpIn.toNat td.players []).1 = _
      rw [hdl]
    · show sortByJoined (td.waitlist ++ (demoteLoop mpIn.toNat td.players []).2) = _
      rw [hdl]
      simp
    · show (sortByJoined (td.waitlist ++ (demoteLoop mpIn.toNat td.players []).2)).Perm _
      rw [hdl]
      simp only [List.nil_append]
      exact sortByJoined_perm _
    · exact sortByJoined_sorted _

/-- **C4**: a valid edit whose new capacity is strictly below the roster
size pops exactly `len(roster) - newCapacity` entries from the end of the
roster (most recently joined first), returns them in pop order, and stores
the truncated roster together with the waitlist extended by the demoted
entries, re-sorted by `joinedAt`.  Concretely, editing roster `[A, B, C]`
down to capacity 1 demotes `[C, B]` in that order and stores waitlist
`[B, C]`. -/
theorem edit_capacity_reduction_spec (active archived : TablesDB) (tid : String)
    (sv scv iv : String) (mpIn : Int) (td : TableData)
    (hget : dbGet active tid = some td)
    (h1 : 0 < mpIn) (h2 : mpIn ≤ 20)
    (hsv : ¬ sv = "") (hscv : ¬ scv = "") (hiv : ¬ iv = "")
    (hlsv : sv.length ≤ 100) (hlscv : scv.length ≤ 120) (hliv : iv.length ≤ 1024)
    (hlt : mpIn.toNat < td.players.length) :
    (∃ demoted,
      (edit_on_submit active archived tid sv scv iv mpIn).result = .ok demoted ∧
      demoted = (td.players.drop mpIn.toNat).reverse ∧
      demoted.length = td.players.length - mpIn.toNat ∧
      ∃ td', dbGet (edit_on_submit active archived tid sv scv iv mpIn).active tid
          = some td' ∧
        td'.players = td.players.take mpIn.toNat ∧
        td'.max_players = mpIn.toNat ∧
        td'.waitlist = sortByJoined (td.waitlist ++ demoted) ∧
        td'.waitlist.Perm (td.waitlist ++ demoted) ∧
        sortedByJoined td'.waitlist = true) ∧
    ((edit_on_submit [("t", editScenarioTable)] [] "t" "Sys" "Sat" "Story" 1).result
        = .ok [⟨3, 3, some "C"⟩, ⟨2, 2, some "B"⟩] ∧
      (dbGet (edit_on_submit [("t", editScenarioTable)] [] "t" "Sys" "Sat" "Story" 1).active
          "t").map (fun t => (t.players, t.waitlist))
        = some ([⟨1, 1, some "A"⟩],
            [⟨2, 2, some "B"⟩, ⟨3, 3, some "C"⟩])) := by
  constructor
  · exact edit_demote_general active archived tid sv scv iv mpIn td hget
      h1 h2 hsv hscv hiv hlsv hlscv hliv hlt
  · obtain ⟨demoted, hr, hd, -, td', hdb, hp, -, hw, -, -⟩ :=
      edit_demote_general [("t", editScenarioTable)] [] "t" "Sys" "Sat" "Story" 1
        editScenarioTable (by decide) (by decide) (by decide) (by decide)
        (by decide) (by decide) (by decide) (by decide) (by decide) (by decide)
    have hd2 : demoted = [(⟨3, 3, some "C"⟩ : PlayerEntry), ⟨2, 2, some "B"⟩] := by
      rw [hd]
      decide
    have hp2 : td'.players = [(⟨1, 1, some "A"⟩ : PlayerEntry)] := by
      rw [hp]
      decide
    have hw2 : td'.waitlist = [(⟨2, 2, some "B"⟩ : PlayerEntry), ⟨3, 3, some "C"⟩] := by
      rw [hw, hd2]
      decide
    constructor
    · rw [hr, hd2]
    · rw [hdb]
      simp [hp2, hw2]

/-- Witness for `edit_capacity_reduction_spec`: `editScenarioTable`
(roster `[A, B, C]`, capacity 3) edited down to capacity 1. -/
theorem edit_capacity_reduction_spec_witness :
    dbGet [("t", editScenarioTable)] "t" = some editScenarioTable ∧
    ((0 : Int) < 1 ∧ (1 : Int) ≤ 20 ∧ (Int.toNat 1) < editScenarioTable.players.length) ∧
    (∃ demoted,
      (edit_on_submit [("t", editScenarioTable)] [] "t" "Sys" "Sat" "Story" 1).result
        = .ok demoted ∧
      demoted = (editScenarioTable.players.drop (Int.toNat 1)).reverse ∧
      demoted.length = editScenarioTable.players.length - (Int.toNat 1)) := by
  have h := edit_capacity_reduction_spec [("t", editScenarioTable)] [] "t"
    "Sys" "Sat" "Story" 1 editScenarioTable (by decide)
    (by decide) (by decide) (by decide) (by decide) (by decide)
    (by decide) (by decide) (by decide) (by decide)
  obtain ⟨⟨demoted, hr, hd, hl, -⟩, -⟩ := h
  exact ⟨by decide, ⟨by decide, by decide, by decide⟩, demoted, hr, hd, hl⟩

/-! ## C7 — id uniqueness across roster and waitlist -/

/-- Appending a fresh element to the left block keeps the combined list
duplicate-free. -/
theorem nodup_snoc_left (P W : List Nat) (u : Nat)
    (h : (P ++ W).Nodup) (huP : ¬ u ∈ P) (huW : ¬ u ∈ W) :
    ((P ++ [u]) ++ W).Nodup := by
  have hperm : ((P ++ [u]) ++ W).Perm (u :: (P ++ W)) :=
    (List.perm_append_singleton u P).append_right W
  rw [hperm.nodup_iff]
  refine List.nodup_cons.mpr ⟨?_, h⟩
  simp only [List.mem_append]
  rintro (hm | hm)
  · exact huP hm
  · exact huW hm

/-- Appending a fresh element to the right block keeps the combined list
duplicate-free. -/
theorem nodup_snoc_right (P W : List Nat) (u : Nat)
    (h : (P ++ W).Nodup) (huP : ¬ u ∈ P) (huW : ¬ u ∈ W) :
    (P ++ (W ++ [u])).Nodup := by
  have h1 : (P ++ (W ++ [u])).Perm (P ++ (u :: W)) :=
    (List.perm_append_singleton u W).append_left P
  have h2 : (P ++ (u :: W)).Perm (u :: (P ++ W)) := List.perm_middle
  rw [(h1.trans h2).nodup_iff]
  refine List.nodup_cons.mpr ⟨?_, h⟩
  simp only [List.mem_append]
  rintro (hm | hm)
  · exact huP hm
  · exact huW hm

/-- Moving the head of the right block to the end of a sub-block of the
left keeps the combined list duplicate-free (the promotion shape). -/
theorem nodup_promote (P W' Pf : List Nat) (w : Nat)
    (h : (P ++ (w :: W')).Nodup) (hsub : Pf.Sublist P) :
    ((Pf ++ [w]) ++ W').Nodup := by
  have h0 : (w :: (P ++ W')).Nodup := (List.perm_middle.nodup_iff).mp h
  have hsub2 : (w :: (Pf ++ W')).Sublist (w :: (P ++ W')) :=
    (hsub.append (List.Sublist.refl W')).cons₂ w
  have h1 : (w :: (Pf ++ W')).Nodup := h0.sublist hsub2
  have hperm : ((Pf ++ [w]) ++ W').Perm (w :: (Pf ++ W')) :=
    (List.perm_append_singleton w Pf).append_right W'
  rw [hperm.nodup_iff]
  exact h1

/-- The demotion/re-sort shape of `edit` keeps the combined ids
duplicate-free. -/
theorem nodup_edit_demote (playersL waitlistL : List PlayerEntry) (n : Nat)
    (h : (ids playersL ++ ids waitlistL).Nodup) :
    (ids (playersL.take n)
      ++ ids (sortByJoined (waitlistL ++ (playersL.drop n).reverse))).Nodup := by
  have s1 : (ids (sortByJoined (waitlistL ++ (playersL.drop n).reverse))).Perm
      (ids waitlistL ++ ids ((playersL.drop n).reverse)) := by
    have h0 := (sortByJoined_perm (waitlistL ++ (playersL.drop n).reverse)).map
      (fun e => e.id)
    rw [← ids_append]
    exact h0
  have s2 : ids ((playersL.drop n).reverse) = (ids (playersL.drop n)).reverse :=
    List.map_reverse _ _
  have s3 : (ids waitlistL ++ ids ((playersL.drop n).reverse)).Perm
      (ids (playersL.drop n) ++ ids waitlistL) := by
    rw [s2]
    exact ((List.reverse_perm _).append_left _).trans List.perm_append_comm
  have s4 : (ids (playersL.take n)
      ++ ids (sortByJoined (waitlistL ++ (playersL.drop n).reverse))).Perm
      (ids (playersL.take n) ++ (ids (playersL.drop n) ++ ids waitlistL)) :=
    (s1.trans s3).append_left _
  have s5 : ids (playersL.take n) ++ (ids (playersL.drop n) ++ ids waitlistL)
      = ids playersL ++ ids waitlistL := by
    rw [← List.append_assoc, ← ids_append, List.take_append_drop]
  rw [s4.nodup_iff, s5]
  exact h

/-- The uniqueness invariant is untouched by clearing the reason and
populating display names. -/
theorem nodupIds_clear_populate (resolve : Nat → Option String) (td : TableData) :
    NodupIds (clearReason (populateTable resolve td)) ↔ NodupIds td := by
  unfold NodupIds
  rw [show (clearReason (populateTable resolve td)).players
      = td.players.map (populateEntry resolve) from rfl]
  rw [show (clearReason (populateTable resolve td)).waitlist
      = td.waitlist.map (populateEntry resolve) from rfl]
  rw [ids_map_populate, ids_map_populate]

/-- The persisted active collection produced by `edit_on_submit`: either
untouched (validation failure or missing table), or the saved update — with
the buckets unchanged, or demoted-and-resorted. -/
theorem edit_active_shape (active archived : TablesDB) (tid : String)
    (sv scv iv : String) (mp : Int) :
    (edit_on_submit active archived tid sv scv iv mp).active = active ∨
    ∃ td td1, dbGet active tid = some td ∧
      (edit_on_submit active archived tid sv scv iv mp).active
        = (save_tables (dbSet active tid td1) archived).1 ∧
      ((td1.players = td.players ∧ td1.waitlist = td.waitlist) ∨
       (mp.toNat < td.players.length ∧
        td1.players = (demoteLoop mp.toNat td.players []).1 ∧
        td1.waitlist = sortByJoined (td.waitlist ++ (demoteLoop mp.toNat td.players []).2))) := by
  by_cases h1 : mp ≤ 0
  · have hsel : edit_on_submit active archived tid sv scv iv mp
        = ⟨.error .badMaxPlayers, [], active, archived⟩ := by
      unfold edit_on_submit
      rw [if_pos h1]
    rw [hsel]
    exact Or.inl rfl
  by_cases h2 : 20 < mp
  · have hsel : edit_on_submit active archived tid sv scv iv mp
        = ⟨.error .badMaxPlayers, [], active, archived⟩ := by
      unfold edit_on_submit
      rw [if_neg h1, if_pos h2]
    rw [hsel]
    exact Or.inl rfl
  by_cases h3 : sv = ""
  · have hsel : edit_on_submit active archived tid sv scv iv mp
        = ⟨.error .emptySystem, [], active, archived⟩ := by
      unfold edit_on_submit
      rw [if_neg h1, if_neg h2, if_pos h3]
    rw [hsel]
    exact Or.inl rfl
  by_cases h4 : scv = ""
  · have hsel : edit_on_submit active archived tid sv scv iv mp
        = ⟨.error .emptySchedule, [], active, archived⟩ := by
      unfold edit_on_submit
      rw [if_neg h1, if_neg h2, if_neg h3, if_pos h4]
    rw [hsel]
    exact Or.inl rfl
  by_cases h5 : iv = ""
  · have hsel : edit_on_submit active archived tid sv scv iv mp
        = ⟨.error .emptyInfos, [], active, archived⟩ := by
      unfold edit_on_submit
      rw [if_neg h1, if_neg h2, if_neg h3, if_neg h4, if_pos h5]
    rw [hsel]
    exact Or.inl rfl
  by_cases h6 : 100 < sv.length
  · have hsel : edit_on_submit active archived tid sv scv iv mp
        = ⟨.error .systemTooLong, [], active, archived⟩ := by
      unfold edit_on_submit
      rw [if_neg h1, if_neg h2, if_neg h3, if_neg h4, if_neg h5, if_pos h6]
    rw [hsel]
    exact Or.inl rfl
  by_cases h7 : 120 < scv.length
  · have hsel : edit_on_submit active archived tid sv scv iv mp
        = ⟨.error .scheduleTooLong, [], active, archived⟩ := by
      unfold edit_on_submit
      rw [if_neg h1, if_neg h2, if_neg h3, if_neg h4, if_neg h5, if_neg h6, if_pos h7]
    rw [hsel]
    exact Or.inl rfl
  by_cases h8 : 1024 < iv.length
  · have hsel : edit_on_submit active archived tid sv scv iv mp
        = ⟨.error .infosTooLong, [], active, archived⟩ := by
      unfold edit_on_submit
      rw [if_neg h1, if_neg h2, if_neg h3, if_neg h4, if_neg h5, if_neg h6, if_neg h7,
        if_pos h8]
    rw [hsel]
    exact Or.inl rfl
  cases hq : dbGet active tid with
  | none =>
    have hsel : edit_on_submit active archived tid sv scv iv mp
        = ⟨.error .tableGone, [], active, archived⟩ := by
      unfold edit_on_submit
      rw [if_neg h1, if_neg h2, if_neg h3, if_neg h4, if_neg h5, if_neg h6, if_neg h7,
        if_neg h8, hq]
    rw [hsel]
    exact Or.inl rfl
  | some td =>
    by_cases hlt : mp.toNat < td.players.length
    · rw [edit_on_submit_demote_branch active archived tid sv scv iv mp td hq
        (by omega) (by omega) h3 h4 h5 (by omega) (by omega) (by omega) hlt]
      exact Or.inr ⟨td, _, rfl, rfl, Or.inr ⟨hlt, rfl, rfl⟩⟩
    · have hsel : edit_on_submit active archived tid sv scv iv mp
          = (let td1 : TableData := { td with
               system := sv, schedule := scv, infos := iv, max_players := mp.toNat }
             let st := save_tables (dbSet active tid td1) archived
             ⟨.ok [], [st], st.1, st.2⟩) := by
        unfold edit_on_submit
        rw [if_neg h1, if_neg h2, if_neg h3, if_neg h4, if_neg h5, if_neg h6, if_neg h7,
          if_neg h8, hq]
        simp [hlt]
      rw [hsel]
      exact Or.inr ⟨td, _, rfl, rfl, Or.inl ⟨rfl, rfl⟩⟩

/-- One operation of the table state machine preserves the per-table
uniqueness invariant of the record it targets. -/
theorem applyOp_preserves_nodup (tid : String) (st : TablesDB × TablesDB)
    (op : TableOp)
    (h : ∀ td, dbGet st.1 tid = some td → NodupIds td) :
    ∀ td', dbGet (applyOp tid st op).1 tid = some td' → NodupIds td' := by
  intro td' hget'
  cases op with
  | joinOp uid name resolve now =>
    simp only [applyOp] at hget'
    cases hget : dbGet st.1 tid with
    | none =>
      have hsel : join_callback st.1 st.2 tid uid name resolve now =
          ⟨.error .tableGone, [], st.1, st.2⟩ := by
        unfold join_callback
        rw [hget]
      rw [hsel] at hget'
      exact h td' hget'
    | some td =>
      have hinv := h td hget
      by_cases hp : td.players.any (fun e => e.id = uid) = true
      · have hsel : join_callback st.1 st.2 tid uid name resolve now =
            ⟨.error .alreadySignedUp, [], st.1, st.2⟩ := by
          unfold join_callback
          rw [hget]
          simp [hp]
        rw [hsel] at hget'
        exact h td' hget'
      · have hpf : td.players.any (fun e => e.id = uid) = false :=
          Bool.of_not_eq_true hp
        by_cases hw : td.waitlist.any (fun e => e.id = uid) = true
        · have hsel : join_callback st.1 st.2 tid uid name resolve now =
              ⟨.error .alreadyOnWaitlist, [], st.1, st.2⟩ := by
            unfold join_callback
            rw [hget]
            simp [hpf, hw]
          rw [hsel] at hget'
          exact h td' hget'
        · have hwf : td.waitlist.any (fun e => e.id = uid) = false :=
            Bool.of_not_eq_true hw
          have huP : ¬ uid ∈ ids td.players := (any_id_eq_false_iff _ _).mp hpf
          have huW : ¬ uid ∈ ids td.waitlist := (any_id_eq_false_iff _ _).mp hwf
          by_cases hfull : td.max_players ≤ td.players.length
          · rw [join_callback_waitlisted st.1 st.2 tid uid name resolve now
              td hget hpf hwf hfull] at hget'
            have hget2 : dbGet (save_tables (dbSet st.1 tid
                (populateTable resolve { td with
                  waitlist := td.waitlist ++ [⟨uid, now, some name⟩] })) st.2).1 tid
                = some td' := hget'
            rw [dbGet_save_set] at hget2
            cases hget2
            rw [show clearReason (populateTable resolve { td with
                waitlist := td.waitlist ++ [⟨uid, now, some name⟩] })
              = clearReason (populateTable resolve { td with
                waitlist := td.waitlist ++ [⟨uid, now, some name⟩] }) from rfl]
            rw [nodupIds_clear_populate]
            unfold NodupIds
            rw [show ({ td with waitlist := td.waitlist ++ [⟨uid, now, some name⟩]
              } : TableData).players = td.players from rfl]
            rw [show ({ td with waitlist := td.waitlist ++ [⟨uid, now, some name⟩]
              } : TableData).waitlist = td.waitlist ++ [⟨uid, now, some name⟩] from rfl]
            rw [ids_append]
            exact nodup_snoc_right _ _ uid hinv huP huW
          · rw [join_callback_seated st.1 st.2 tid uid name resolve now
              td hget hpf hwf (Nat.not_le.mp hfull)] at hget'
            have hget2 : dbGet (save_tables (dbSet st.1 tid
                (populateTable resolve { td with
                  players := td.players ++ [⟨uid, now, some name⟩] })) st.2).1 tid
                = some td' := hget'
            rw [dbGet_save_set] at hget2
            cases hget2
            rw [nodupIds_clear_populate]
            unfold NodupIds
            rw [show ({ td with players := td.players ++ [⟨uid, now, some name⟩]
              } : TableData).players = td.players ++ [⟨uid, now, some name⟩] from rfl]
            rw [show ({ td with players := td.players ++ [⟨uid, now, some name⟩]
              } : TableData).waitlist = td.waitlist from rfl]
            rw [ids_append]
            exact nodup_snoc_left _ _ uid hinv huP huW
  | leaveOp uid resolve =>
    simp only [applyOp] at hget'
    cases hget : dbGet st.1 tid with
    | none =>
      have hsel : leave_callback st.1 st.2 tid uid resolve =
          ⟨.error .notSignedUp, [], st.1, st.2⟩ := by
        unfold leave_callback
        rw [hget]
      rw [hsel] at hget'
      exact h td' hget'
    | some td =>
      have hinv := h td hget
      by_cases hp : td.players.any (fun e => e.id = uid) = true
      · cases hwl : td.waitlist with
        | nil =>
          have hsel : leave_callback st.1 st.2 tid uid resolve =
              (let td1 := populateTable resolve { td with
                  players := td.players.filter (fun e => ¬ e.id = uid) }
               let st1 := save_tables (dbSet st.1 tid td1) st.2
               ⟨.ok none, [st1], st1.1, st1.2⟩) := by
            unfold leave_callback
            rw [hget]
            simp [hp, hwl]
          rw [hsel] at hget'
          have hget2 : dbGet (save_tables (dbSet st.1 tid
              (populateTable resolve { td with
                players := td.players.filter (fun e => ¬ e.id = uid) })) st.2).1 tid
              = some td' := hget'
          rw [dbGet_save_set] at hget2
          cases hget2
          rw [nodupIds_clear_populate]
          unfold NodupIds
          rw [show ({ td with players := td.players.filter (fun e => ¬ e.id = uid)
            } : TableData).players = td.players.filter (fun e => ¬ e.id = uid) from rfl]
          rw [show ({ td with players := td.players.filter (fun e => ¬ e.id = uid)
            } : TableData).waitlist = td.waitlist from rfl]
          exact hinv.sublist
            (((List.filter_sublist _).map _).append (List.Sublist.refl _))
        | cons w ws =>
          have hsel : leave_callback st.1 st.2 tid uid resolve =
              (let td1 := populateTable resolve { td with
                  players := td.players.filter (fun e => ¬ e.id = uid) ++ [w],
                  waitlist := ws }
               let st1 := save_tables (dbSet st.1 tid td1) st.2
               ⟨.ok (some w), [st1], st1.1, st1.2⟩) := by
            unfold leave_callback
            rw [hget]
            simp [hp, hwl]
          rw [hsel] at hget'
          have hget2 : dbGet (save_tables (dbSet st.1 tid
              (populateTable resolve { td with
                players := td.players.filter (fun e => ¬ e.id = uid) ++ [w],
                waitlist := ws })) st.2).1 tid
              = some td' := hget'
          rw [dbGet_save_set] at hget2
          cases hget2
          rw [nodupIds_clear_populate]
          unfold NodupIds
          rw [show ({ td with
              players := td.players.filter (fun e => ¬ e.id = uid) ++ [w],
              waitlist := ws } : TableData).players
            = td.players.filter (fun e => ¬ e.id = uid) ++ [w] from rfl]
          rw [show ({ td with
              players := td.players.filter (fun e => ¬ e.id = uid) ++ [w],
              waitlist := ws } : TableData).waitlist = ws from rfl]
          rw [ids_append]
          unfold NodupIds at hinv
          rw [hwl] at hinv
          exact nodup_promote (ids td.players) (ids ws)
            (ids (td.players.filter (fun e => ¬ e.id = uid))) w.id hinv
            ((List.filter_sublist _).map _)
      · by_cases hw : td.waitlist.any (fun e => e.id = uid) = true
        · have hpf : td.players.any (fun e => e.id = uid) = false :=
            Bool.of_not_eq_true hp
          have hsel : leave_callback st.1 st.2 tid uid resolve =
              (let td1 := populateTable resolve { td with
                  waitlist := td.waitlist.filter (fun e => ¬ e.id = uid) }
               let st1 := save_tables (dbSet st.1 tid td1) st.2
               ⟨.ok none, [st1], st1.1, st1.2⟩) := by
            unfold leave_callback
            rw [hget]
            simp [hpf, hw]
          rw [hsel] at hget'
          have hget2 : dbGet (save_tables (dbSet st.1 tid
              (populateTable resolve { td with
                waitlist := td.waitlist.filter (fun e => ¬ e.id = uid) })) st.2).1 tid
              = some td' := hget'
          rw [dbGet_save_set] at hget2
          cases hget2
          rw [nodupIds_clear_populate]
          unfold NodupIds
          rw [show ({ td with waitlist := td.waitlist.filter (fun e => ¬ e.id = uid)
            } : TableData).players = td.players from rfl]
          rw [show ({ td with waitlist := td.waitlist.filter (fun e => ¬ e.id = uid)
            } : TableData).waitlist = td.waitlist.filter (fun e => ¬ e.id = uid) from rfl]
          exact hinv.sublist
            ((List.Sublist.refl _).append ((List.filter_sublist _).map _))
        · have hpf : td.players.any (fun e => e.id = uid) = false :=
            Bool.of_not_eq_true hp
          have hwf : td.waitlist.any (fun e => e.id = uid) = false :=
            Bool.of_not_eq_true hw
          have hsel : leave_callback st.1 st.2 tid uid resolve =
              ⟨.error .notSignedUp, [], st.1, st.2⟩ := by
            unfold leave_callback
            rw [hget]
            simp [hpf, hwf]
          rw [hsel] at hget'
          exact h td' hget'
  | editOp sv scv iv mp =>
    simp only [applyOp] at hget'
    rcases edit_active_shape st.1 st.2 tid sv scv iv mp with hshape |
      ⟨td, td1, heq, hact, hcase⟩
    · rw [hshape] at hget'
      exact h td' hget'
    · rw [hact] at hget'
      rw [dbGet_save_set] at hget'
      cases hget'
      have hinv := h td heq
      rcases hcase with ⟨hp1, hw1⟩ | ⟨hlt, hp1, hw1⟩
      · unfold NodupIds clearReason
        rw [show ({ td1 with archive_reason := none } : TableData).players
          = td1.players from rfl]
        rw [show ({ td1 with archive_reason := none } : TableData).waitlist
          = td1.waitlist from rfl]
        rw [hp1, hw1]
        exact hinv
      · have hdl := demoteLoop_eq mp.toNat (td.players.length - mp.toNat)
          td.players [] (by omega)
        rw [hdl] at hp1 hw1
        unfold NodupIds clearReason
        rw [show ({ td1 with archive_reason := none } : TableData).players
          = td1.players from rfl]
        rw [show ({ td1 with archive_reason := none } : TableData).waitlist
          = td1.waitlist from rfl]
        rw [hp1, hw1]
        simp only [List.nil_append]
        exact nodup_edit_demote td.players td.waitlist mp.toNat hinv

/-- A whole operation sequence preserves the uniqueness invariant. -/
theorem applyOps_preserves_nodup (tid : String) :
    ∀ (ops : List TableOp) (st : TablesDB × TablesDB),
      (∀ td, dbGet st.1 tid = some td → NodupIds td) →
      ∀ td', dbGet (applyOps tid st ops).1 tid = some td' → NodupIds td' := by
  intro ops
  induction ops with
  | nil =>
    intro st h td' hget
    exact h td' hget
  | cons op rest ih =>
    intro st h td' hget
    exact ih (applyOp tid st op) (applyOp_preserves_nodup tid st op h) td'
      (by simpa [applyOps, List.foldl] using hget)

/-- **C7**: for every table record reachable from a freshly created table by
any sequence of join, leave, and edit operations, each user id appears at
most once across the roster and the waitlist combined. -/
theorem user_id_unique_across_buckets (active archived : TablesDB)
    (tid : String) (ops : List TableOp) (sv iv scv ca : String)
    (c creator guild : Nat) (td' : TableData)
    (hget : dbGet (applyOps tid
        (dbSet active tid (freshTable sv iv scv ca c creator guild), archived)
        ops).1 tid = some td') :
    NodupIds td' := by
  refine applyOps_preserves_nodup tid ops
    (dbSet active tid (freshTable sv iv scv ca c creator guild), archived)
    ?_ td' hget
  intro td hgot
  rw [show dbGet (dbSet active tid (freshTable sv iv scv ca c creator guild)) tid
      = some (freshTable sv iv scv ca c creator guild)
    from dbGet_dbSet_self _ _ _] at hgot
  cases hgot
  unfold NodupIds freshTable
  simp [ids]

/-- Witness for `user_id_unique_across_buckets`: join A, join B, edit the
fields (capacity 5, no demotion), then A leaves and B is promoted. -/
theorem user_id_unique_across_buckets_witness :
    (∃ td', dbGet (applyOps "t"
        (dbSet [] "t" (freshTable "s" "i" "sc" "c" 1 5 9), [])
        [TableOp.joinOp 1 "A" noResolve 1, TableOp.joinOp 2 "B" noResolve 2,
         TableOp.editOp "S2" "Sch2" "I2" 5, TableOp.leaveOp 1 noResolve]).1 "t"
        = some td' ∧ NodupIds td') := by
  cases hq : dbGet (applyOps "t"
      (dbSet [] "t" (freshTable "s" "i" "sc" "c" 1 5 9), [])
      [TableOp.joinOp 1 "A" noResolve 1, TableOp.joinOp 2 "B" noResolve 2,
       TableOp.editOp "S2" "Sch2" "I2" 5, TableOp.leaveOp 1 noResolve]).1 "t" with
  | none =>
    exact absurd hq (by decide)
  | some td' =>
    exact ⟨td', rfl, user_id_unique_across_buckets [] [] "t"
      [TableOp.joinOp 1 "A" noResolve 1, TableOp.joinOp 2 "B" noResolve 2,
       TableOp.editOp "S2" "Sch2" "I2" 5, TableOp.leaveOp 1 noResolve]
      "s" "i" "sc" "c" 1 5 9 td' hq⟩

/-! ## C9 — storage round-trip reproduces every field exactly -/

/-- Nullable strings survive serialization. -/
theorem roundtrip_optstr (x : Option String) :
    jsonToPval (pvalToJson (encodeOptStr x)) = encodeOptStr x := by
  cases x <;> rfl

/-- Nullable ints survive serialization. -/
theorem roundtrip_optnat (x : Option Nat) :
    jsonToPval (pvalToJson (encodeOptNat x)) = encodeOptNat x := by
  cases x <;> rfl

/-- A player dict survives serialization — in particular an absent
`display_name` key stays absent and a present one stays present. -/
theorem roundtrip_player (e : PlayerEntry) :
    jsonToPval (pvalToJson (encodePlayer e)) = encodePlayer e := by
  cases hd : e.display_name <;>
    simp [encodePlayer, hd, pvalToJson, pvalObjToJson, pvalListToJson,
      jsonToPval, jsonObjToPval, jsonListToPval]

/-- A list of player dicts survives serialization. -/
theorem roundtrip_players : ∀ l : List PlayerEntry,
    jsonListToPval (pvalListToJson (l.map encodePlayer)) = l.map encodePlayer := by
  intro l
  induction l with
  | nil => rfl
  | cons e t ih =>
    simp only [List.map_cons, pvalListToJson, jsonListToPval, roundtrip_player, ih]

/-- `ArchiveReason(member.value)` recovers the member. -/
theorem fromString_value (r : ArchiveReason) :
    ArchiveReason.fromString r.value = some r := by
  cases r <;> rfl

/-- Writing one record dict and normalizing it back on read reproduces the
dict exactly, enum conversion included. -/
theorem entry_roundtrip (td : TableData) :
    normalizeEntry (pvalObjToJson (convertEntryForWrite (encodeRecord td)))
      = .ok (encodeRecord td) := by
  cases hr : td.archive_reason with
  | none =>
    unfold convertEntryForWrite normalizeEntry encodeRecord
    rw [hr]
    simp [pdictGet, pdictSet, List.find?, pvalObjToJson, jsonObjToPval,
      pvalToJson, jsonToPval, encodeReason, roundtrip_optstr, roundtrip_optnat,
      roundtrip_players]
  | some r =>
    unfold convertEntryForWrite normalizeEntry encodeRecord
    rw [hr]
    simp [pdictGet, pdictSet, List.find?, pvalObjToJson, jsonObjToPval,
      pvalToJson, jsonToPval, encodeReason, roundtrip_optstr, roundtrip_optnat,
      roundtrip_players, fromString_value]

/-- Reading back a written partition document reproduces the in-memory
dicts exactly. -/
theorem read_write_db (db : TablesDB) :
    readJsonModel (some (writeJsonModel (encodeDB db))) = .ok (encodeDB db) := by
  unfold writeJsonModel
  rw [show readJsonModel (some (JVal.jobj ((encodeDB db).map (fun p =>
      (p.1, JVal.jobj (pvalObjToJson (convertEntryForWrite p.2)))))))
    = readJsonModel.readJsonEntries ((encodeDB db).map (fun p =>
      (p.1, JVal.jobj (pvalObjToJson (convertEntryForWrite p.2))))) from rfl]
  induction db with
  | nil => rfl
  | cons p t ih =>
    obtain ⟨k, td⟩ := p
    simp only [encodeDB, List.map_cons] at *
    rw [show readJsonModel.readJsonEntries
        ((k, JVal.jobj (pvalObjToJson (convertEntryForWrite (encodeRecord td))))
          :: List.map (fun p => (p.1, JVal.jobj (pvalObjToJson (convertEntryForWrite p.2))))
               (List.map (fun p => (p.1, encodeRecord p.2)) t))
      = (do
          let e ← normalizeEntry (pvalObjToJson (convertEntryForWrite (encodeRecord td)))
          let r ← readJsonModel.readJsonEntries
            (List.map (fun p => (p.1, JVal.jobj (pvalObjToJson (convertEntryForWrite p.2))))
              (List.map (fun p => (p.1, encodeRecord p.2)) t))
          Except.ok ((k, e) :: r)) from rfl]
    rw [entry_roundtrip td, ih]
    rfl

/-- The active-side normalization of `save_tables` is a no-op on records
whose reason is already null. -/
theorem pdictSet_reason_none (td : TableData) (h : td.archive_reason = none) :
    pdictSet (encodeRecord td) "archive_reason" PVal.pnull = encodeRecord td := by
  unfold encodeRecord pdictSet
  rw [h]
  simp [encodeReason]

/-- **C9**: writing two collections of well-formed records (active records
carrying no archive reason, as the data model requires of the active
partition) through `save_tables`/`_write_json` and loading them back with
`_read_json`/`load_tables` reproduces every field of every record exactly —
archive metadata, null fields, and absent-vs-null optional fields
included. -/
theorem storage_roundtrip_exact (activeDb archivedDb : TablesDB)
    (hA : ∀ p ∈ activeDb, p.2.archive_reason = none) :
    loadTablesFiles
        (some (saveTablesFiles (encodeDB activeDb) (encodeDB archivedDb)).1)
        (some (saveTablesFiles (encodeDB activeDb) (encodeDB archivedDb)).2)
      = .ok (encodeDB activeDb, encodeDB archivedDb) := by
  have hnorm : ∀ (db : TablesDB), (∀ p ∈ db, p.2.archive_reason = none) →
      (encodeDB db).map (fun p => (p.1, pdictSet p.2 "archive_reason" PVal.pnull))
        = encodeDB db := by
    intro db
    induction db with
    | nil => intro _; rfl
    | cons p t ih =>
      intro hall
      simp only [encodeDB, List.map_cons]
      rw [pdictSet_reason_none p.2 (hall p (List.mem_cons_self p t))]
      have := ih (fun q hq => hall q (List.mem_cons_of_mem p hq))
      simp only [encodeDB] at this
      rw [this]
  rw [show (saveTablesFiles (encodeDB activeDb) (encodeDB archivedDb)).1
      = writeJsonModel ((encodeDB activeDb).map (fun p =>
          (p.1, pdictSet p.2 "archive_reason" PVal.pnull))) from rfl]
  rw [show (saveTablesFiles (encodeDB activeDb) (encodeDB archivedDb)).2
      = writeJsonModel (encodeDB archivedDb) from rfl]
  rw [hnorm activeDb hA]
  unfold loadTablesFiles
  rw [read_write_db activeDb, read_write_db archivedDb]
  rfl

/-- Witness for `storage_roundtrip_exact`: an active record with a null
`created_at`, one player with a cached display name and one without, and an
archived record with full archive metadata. -/
theorem storage_roundtrip_exact_witness :
    (∀ p ∈ ([("a", { sampleTable with
          created_at := none,
          players := [⟨1, 1, some "A"⟩, ⟨2, 2, none⟩] })] : TablesDB),
        p.2.archive_reason = none) ∧
    loadTablesFiles
        (some (saveTablesFiles
          (encodeDB [("a", { sampleTable with
            created_at := none,
            players := [⟨1, 1, some "A"⟩, ⟨2, 2, none⟩] })])
          (encodeDB [("b", { sampleTable with
            archive_reason := some ArchiveReason.KICK,
            archived_at := some "2025-02-01T00:00:00Z",
            archived_by := some 7 })])).1)
        (some (saveTablesFiles
          (encodeDB [("a", { sampleTable with
            created_at := none,
            players := [⟨1, 1, some "A"⟩, ⟨2, 2, none⟩] })])
          (encodeDB [("b", { sampleTable with
            archive_reason := some ArchiveReason.KICK,
            archived_at := some "2025-02-01T00:00:00Z",
            archived_by := some 7 })])).2)
      = .ok (encodeDB [("a", { sampleTable with
            created_at := none,
            players := [⟨1, 1, some "A"⟩, ⟨2, 2, none⟩] })],
          encodeDB [("b", { sampleTable with
            archive_reason := some ArchiveReason.KICK,
            archived_at := some "2025-02-01T00:00:00Z",
            archived_by := some 7 })]) :=
  ⟨by decide,
    storage_roundtrip_exact
      [("a", { sampleTable with
        created_at := none,
        players := [⟨1, 1, some "A"⟩, ⟨2, 2, none⟩] })]
      [("b", { sampleTable with
        archive_reason := some ArchiveReason.KICK,
        archived_at := some "2025-02-01T00:00:00Z",
        archived_by := some 7 })]
      (by decide)⟩

end TablePlanner
